import Mathlib

/-!
Verification of the `required-expansions-write` lint rule
(`evergreen_lint/rules/required_expansions_write.py`).

The rule walks an already-parsed Evergreen YAML document.  The document is a
nested structure of mappings, sequences and scalars; we embed it as the
inductive type `Yaml` below.  The helper module `evergreen_lint.helpers` is not
part of the sources at hand (only its caller is), so the four structural match
predicates and the two document iterators are modelled from the specification;
each such definition carries a doc comment saying so.  Everything else is a
direct translation of `required_expansions_write.py`.
-/

/-- A parsed YAML value: null, boolean, number, string, sequence, or mapping.
Mappings are association lists of string keys in document order (Python dicts
preserve insertion order). -/
inductive Yaml where
  | null : Yaml
  | bool : Bool → Yaml
  | nat : Nat → Yaml
  | str : String → Yaml
  | list : List Yaml → Yaml
  | map : List (String × Yaml) → Yaml

/-- Key lookup in a mapping, i.e. the combination of Python `k in d` and
`d[k]` on a dict.  A non-mapping value has no keys. -/
def Yaml.lookup : Yaml → String → Option Yaml
  | .map kvs, k => (kvs.find? (fun kv => kv.1 == k)).map (fun kv => kv.2)
  | _, _ => none

/-- Python truthiness of a YAML value: empty containers, empty strings, zero,
false and null are falsy. -/
def Yaml.truthy : Yaml → Bool
  | .null => false
  | .bool b => b
  | .nat n => n != 0
  | .str s => !s.isEmpty
  | .list l => !l.isEmpty
  | .map kvs => !kvs.isEmpty

/-- Whether a value is a mapping (Python `isinstance(x, dict)`). -/
def Yaml.isMapShape : Yaml → Bool
  | .map _ => true
  | _ => false

/-- Whether a value is a sequence (Python `isinstance(x, list)`). -/
def Yaml.isListShape : Yaml → Bool
  | .list _ => true
  | _ => false

/-- Rendering of a scalar value inside an f-string (Python `str()`).  The data
model only ever renders function names, which are strings; container values
are abbreviated. -/
def Yaml.pyStr : Yaml → String
  | .null => "None"
  | .bool b => if b then "True" else "False"
  | .nat n => toString n
  | .str s => s
  | .list _ => "<list>"
  | .map _ => "<dict>"

/-- Does `pat` occur as a contiguous segment of `xs`? -/
def containsSeg (pat : List Char) : List Char → Bool
  | [] => pat.isEmpty
  | x :: xs => pat.isPrefixOf (x :: xs) || containsSeg pat xs

/-- Does the string `pat` occur as a substring of `s`? -/
def strContains (s pat : String) : Bool :=
  containsSeg pat.data s.data

/-- Does the string `s` end with `pat`? -/
def strEndsWith (s pat : String) : Bool :=
  pat.data.reverse.isPrefixOf s.data.reverse

/-- Modelled from the spec: the default script pattern of the rule.  The spec
describes it as matching paths under an `evergreen/` directory ending in
`.sh`; we test exactly that (a `/evergreen/` path segment and a `.sh`
suffix). -/
def matchesEvergreenScript (s : String) : Bool :=
  strContains s "/evergreen/" && strEndsWith s ".sh"

/-- Modelled from the spec: the script path of a `subprocess.exec` command is
taken from the first entry of its `params.args` sequence; a command without
one has no script path. -/
def scriptArg (c : Yaml) : String :=
  match c.lookup "params" with
  | some p =>
      match p.lookup "args" with
      | some (.list (.str s :: _)) => s
      | _ => ""
  | none => ""

/-- Modelled from the spec: `helpers.match_expansions_write` is absent from
the sources.  Per the spec a step is an expansions-write step when its command
identifier is `expansions.write`, with any params. -/
def match_expansions_write (c : Yaml) : Bool :=
  match c.lookup "command" with
  | some (.str s) => s == "expansions.write"
  | _ => false

/-- Modelled from the spec: `helpers.match_subprocess_exec` is absent from the
sources.  Per the spec a step is a script-execution step when its command
identifier is `subprocess.exec` and its script path matches the pattern for
paths under an `evergreen/` directory ending in `.sh`.  Note the helper
receives only the command, so the pattern is fixed, not taken from the
rule config. -/
def match_subprocess_exec (c : Yaml) : Bool :=
  (match c.lookup "command" with
   | some (.str s) => s == "subprocess.exec"
   | _ => false)
  && matchesEvergreenScript (scriptArg c)

/-- Modelled from the spec: `helpers.match_expansions_update` is absent from
the sources.  A step is an expansions-update step when its command identifier
is `expansions.update`. -/
def match_expansions_update (c : Yaml) : Bool :=
  match c.lookup "command" with
  | some (.str s) => s == "expansions.update"
  | _ => false

/-- Modelled from the spec: `helpers.match_timeout_update` is absent from the
sources.  A step is a timeout-update step when its command identifier is
`timeout.update`. -/
def match_timeout_update (c : Yaml) : Bool :=
  match c.lookup "command" with
  | some (.str s) => s == "timeout.update"
  | _ => false

/-- The four function-classification sets built by `__call__`.  The source
uses Python sets; we keep insertion-ordered lists without duplicates, which is
what the per-run iteration of those sets produces. -/
structure FnSets where
  expansions_write_fns : List String
  subprocess_exec_fns : List String
  expansions_update_fns : List String
  timeout_update_fns : List String
deriving Repr, DecidableEq

/-- The empty classification (all four sets empty). -/
def emptyFnSets : FnSets := ⟨[], [], [], []⟩

/-- Set insertion on the ordered-list representation (`set.add`). -/
def addFn (l : List String) (n : String) : List String :=
  if l.contains n then l else l ++ [n]

/-- One iteration of the classification loop of `__call__`: a dict-form body
is tested against the four predicates in order and added to the first matching
set; list-form bodies and unmatched bodies are left unclassified. -/
def classifyStep (S : FnSets) (f : String × Yaml) : FnSets :=
  if f.2.isMapShape then
    if match_expansions_write f.2 then
      { S with expansions_write_fns := addFn S.expansions_write_fns f.1 }
    else if match_subprocess_exec f.2 then
      { S with subprocess_exec_fns := addFn S.subprocess_exec_fns f.1 }
    else if match_expansions_update f.2 then
      { S with expansions_update_fns := addFn S.expansions_update_fns f.1 }
    else if match_timeout_update f.2 then
      { S with timeout_update_fns := addFn S.timeout_update_fns f.1 }
    else S
  else S

/-- The classification loop of `__call__` over `yaml["functions"].items()`. -/
def classifyFunctions (fns : List (String × Yaml)) : FnSets :=
  fns.foldl classifyStep emptyFnSets

/-- Translation of `_is_expansions_write_or_fn`: a direct match, or a call to
a function classified into `expansions_write_fns`.  A non-string `func` value
is never a member of the set of names. -/
def is_expansions_write_or_fn (S : FnSets) (c : Yaml) : Bool :=
  match_expansions_write c ||
    (match c.lookup "func" with
     | some (.str s) => S.expansions_write_fns.contains s
     | _ => false)

/-- Translation of `_is_subprocess_exec_or_fn`. -/
def is_subprocess_exec_or_fn (S : FnSets) (c : Yaml) : Bool :=
  match_subprocess_exec c ||
    (match c.lookup "func" with
     | some (.str s) => S.subprocess_exec_fns.contains s
     | _ => false)

/-- Translation of `_is_expansions_update_or_fn`. -/
def is_expansions_update_or_fn (S : FnSets) (c : Yaml) : Bool :=
  match_expansions_update c ||
    (match c.lookup "func" with
     | some (.str s) => S.expansions_update_fns.contains s
     | _ => false)

/-- Translation of `_is_timeout_update_or_fn`. -/
def is_timeout_update_or_fn (S : FnSets) (c : Yaml) : Bool :=
  match_timeout_update c ||
    (match c.lookup "func" with
     | some (.str s) => S.timeout_update_fns.contains s
     | _ => false)

/-- Rendering of `list(expansions_write_fns)` inside the messages.  The Python
repr quoting of the names is not reproduced; only the bracketed,
comma-separated shape is. -/
def pyListRender (fns : List String) : String :=
  "[" ++ String.intercalate ", " fns ++ "]"

/-- Translation of `_context_add_fn`: append the called function name to the
context when the command is truthy and carries a `func` key. -/
def context_add_fn (context : String) : Option Yaml → String
  | some c =>
      if c.truthy then
        match c.lookup "func" with
        | some v => context ++ ", (function call: " ++ v.pyStr ++ ")"
        | none => context
      else context
  | none => context

/-- Translation of `_out_message_dangerous_function`. -/
def out_message_dangerous_function (writeFns : List String) (context : String) : String :=
  context ++ " cannot safely take arguments. Call expansions.write with params: file: expansions.yml; redacted: true, (or use one of these functions: "
    ++ pyListRender writeFns
    ++ ") in the function, or do not pass arguments to it."

/-- Translation of `_out_message_expansions_update` (with its `fname`
parameter, `expansions.update` or `timeout.update`). -/
def out_message_expansions_update (writeFns : List String) (context : String)
    (fname : String) : String :=
  context ++ " is an " ++ fname
    ++ " command that is not immediately followed by an expansions.write call. Always call expansions.write with params: file: expansions.yml; redacted: true, (or use one of these functions: "
    ++ pyListRender writeFns
    ++ ") after calling " ++ fname ++ "."

/-- Translation of `_out_message_subprocess`. -/
def out_message_subprocess (writeFns : List String) (context : String) : String :=
  context ++ " calls an evergreen shell script without a preceding expansions.write call. Always call expansions.write with params: file: expansions.yml; redacted: true, (or use one of these functions: "
    ++ pyListRender writeFns
    ++ ") before calling an evergreen shell script via subprocess.exec."

/-- A violation emitted by `_check_command_list`, tagged with the index of the
command it references and the already-assembled context string.  The source
builds the message string at the emission site; `renderViol` below produces
exactly that string, so the string-level checker is the rendering of this
tagged trace. -/
inductive Viol where
  | subproc (idx : Nat) (fullContext : String)
  | expUpdate (idx : Nat) (fullContext : String)
  | timeoutUpdate (idx : Nat) (fullContext : String)
deriving Repr, DecidableEq

/-- The message string a tagged violation stands for. -/
def renderViol (writeFns : List String) : Viol → String
  | .subproc _ fc => out_message_subprocess writeFns fc
  | .expUpdate _ fc => out_message_expansions_update writeFns fc "expansions.update"
  | .timeoutUpdate _ fc => out_message_expansions_update writeFns fc "timeout.update"

/-- Is this a script-execution (missing write before exec) violation? -/
def Viol.isSubprocViol : Viol → Bool
  | .subproc _ _ => true
  | _ => false

/-- Is this an update-not-followed-by-write violation (of either wording)? -/
def Viol.isUpdateViol : Viol → Bool
  | .expUpdate _ _ => true
  | .timeoutUpdate _ _ => true
  | _ => false

/-- Is this an update violation tagged to index `idx`? -/
def Viol.isUpdateViolAt (idx : Nat) : Viol → Bool
  | .expUpdate i _ => i == idx
  | .timeoutUpdate i _ => i == idx
  | _ => false

/-- The scan state of `_check_command_list`: first script-execution index and
command, first expansions-write index, the warned flag, and the accumulated
violations. -/
structure ScanState where
  first_subprocess : Option Nat
  first_subprocess_cmd : Option Yaml
  first_exp_write : Option Nat
  warned_subprocess : Bool
  out : List Viol

/-- The initial scan state. -/
def initScan : ScanState := ⟨none, none, none, false, []⟩

/-- Condition of the first branch of the loop body: record the first
script-execution step. -/
def fire_first_sub (S : FnSets) (st : ScanState) (c : Yaml) : Bool :=
  st.first_subprocess.isNone && is_subprocess_exec_or_fn S c

/-- Condition of the `elif` branch: record the first expansions-write step.
Being an `elif`, it is suppressed at an index where the first branch fired. -/
def fire_first_write (S : FnSets) (st : ScanState) (c : Yaml) : Bool :=
  !(fire_first_sub S st c) && st.first_exp_write.isNone && is_expansions_write_or_fn S c

/-- The value of `first_exp_write` after the `if`/`elif` pair. -/
def new_first_write (S : FnSets) (st : ScanState) (idx : Nat) (c : Yaml) : Option Nat :=
  if fire_first_write S st c then some idx else st.first_exp_write

/-- Condition of the warning branch.  The source evaluates it after the
`if`/`elif` pair, so it reads the updated `first_exp_write`. -/
def fire_warn (S : FnSets) (st : ScanState) (idx : Nat) (c : Yaml) : Bool :=
  !st.warned_subprocess && is_subprocess_exec_or_fn S c && (new_first_write S st idx c).isNone

/-- The `len(commands) <= idx + 1 or not _is_expansions_write_or_fn(commands[idx + 1])`
test, phrased on the rest of the list: out of range, or the next step is not
an expansions-write step. -/
def bad_next (S : FnSets) : Option Yaml → Bool
  | none => true
  | some nxt => !is_expansions_write_or_fn S nxt

/-- Condition of the update branch: the step is an expansions-update or
timeout-update step whose successor is missing or not an expansions-write
step. -/
def upd_fire (S : FnSets) (c : Yaml) (next? : Option Yaml) : Bool :=
  (is_expansions_update_or_fn S c || is_timeout_update_or_fn S c) && bad_next S next?

/-- The violations one loop iteration appends: the warning (if it fires)
followed by the update violation (if it fires).  Inside the update branch the
source emits the `expansions.update` wording on `_is_expansions_update_or_fn`
and otherwise (the `elif`, which the branch condition makes exhaustive) the
`timeout.update` wording. -/
def step_viols (S : FnSets) (context : String) (st : ScanState) (idx : Nat)
    (c : Yaml) (next? : Option Yaml) : List Viol :=
  (if fire_warn S st idx c then
     [Viol.subproc idx (context_add_fn (context ++ ", command " ++ toString idx) (some c))]
   else [])
  ++ (if upd_fire S c next? then
        [if is_expansions_update_or_fn S c then
           Viol.expUpdate idx (context_add_fn (context ++ ", command " ++ toString idx) (some c))
         else
           Viol.timeoutUpdate idx (context_add_fn (context ++ ", command " ++ toString idx) (some c))]
      else [])

/-- One iteration of the loop of `_check_command_list`, with the source's
sequential state updates flattened into a single record: the first branch
sets `first_subprocess`/`first_subprocess_cmd`, the `elif` sets
`first_exp_write`, then the warning branch and the update branch append their
violations. -/
def scan_step (S : FnSets) (context : String) (st : ScanState) (idx : Nat)
    (c : Yaml) (next? : Option Yaml) : ScanState :=
  { first_subprocess := if fire_first_sub S st c then some idx else st.first_subprocess
    first_subprocess_cmd := if fire_first_sub S st c then some c else st.first_subprocess_cmd
    first_exp_write := new_first_write S st idx c
    warned_subprocess := st.warned_subprocess || fire_warn S st idx c
    out := st.out ++ step_viols S context st idx c next? }

/-- The `for idx, command in enumerate(commands)` loop.  The successor lookup
`commands[idx + 1]` is the head of the remaining list. -/
def scan_list (S : FnSets) (context : String) : ScanState → Nat → List Yaml → ScanState
  | st, _, [] => st
  | st, idx, c :: rest => scan_list S context (scan_step S context st idx c rest.head?) (idx + 1) rest

/-- The post-scan fallback of `_check_command_list`: when no warning was
issued but the first script-execution index precedes the first
expansions-write index, emit one more violation for the first
script-execution step. -/
def scan_fallback (_S : FnSets) (context : String) (st : ScanState) : List Viol :=
  match st.first_subprocess, st.first_exp_write with
  | some i, some j =>
      if st.warned_subprocess = false ∧ i < j then
        [Viol.subproc i (context_add_fn (context ++ ", command " ++ toString i) st.first_subprocess_cmd)]
      else []
  | _, _ => []

/-- The tagged trace of `_check_command_list`: the violations of the scan, in
emission order, with the fallback violation (if any) appended last. -/
def check_command_listV (S : FnSets) (context : String) (commands : List Yaml) : List Viol :=
  (scan_list S context initScan 0 commands).out
    ++ scan_fallback S context (scan_list S context initScan 0 commands)

/-- Translation of `_check_command_list`: the list of message strings, which
is the rendering of the tagged trace. -/
def check_command_list (S : FnSets) (context : String) (commands : List Yaml) : List String :=
  (check_command_listV S context commands).map (renderViol S.expansions_write_fns)

/-- The tagged trace of the command-list checker with the post-scan fallback
branch removed (only the violations emitted during the scan). -/
def check_command_listV_nofallback (S : FnSets) (context : String) (commands : List Yaml) : List Viol :=
  (scan_list S context initScan 0 commands).out

/-- The command-list checker with the post-scan fallback branch removed, at
the message-string level. -/
def check_command_list_nofallback (S : FnSets) (context : String) (commands : List Yaml) : List String :=
  (check_command_listV_nofallback S context commands).map (renderViol S.expansions_write_fns)

/-!  The simple recursion below restates the scan on three booleans (a
script-execution step seen, an expansions-write step recorded, the warning
issued); it is the induction-friendly form of the loop, related to
`scan_list` by `scan_list_out_eq` below. -/

/-- The violation trace of the scan, recomputed over the boolean shadow of the
state: `subSeen`, `seenWrite` and `warned` shadow `first_subprocess.isSome`,
`first_exp_write.isSome` and `warned_subprocess`. -/
def simple_check (S : FnSets) (context : String)
    (subSeen seenWrite warned : Bool) : Nat → List Yaml → List Viol
  | _, [] => []
  | idx, c :: rest =>
    let b1 := !subSeen && is_subprocess_exec_or_fn S c
    let sw := seenWrite || (!b1 && is_expansions_write_or_fn S c)
    let wf := !warned && is_subprocess_exec_or_fn S c && !sw
    (if wf then
       [Viol.subproc idx (context_add_fn (context ++ ", command " ++ toString idx) (some c))]
     else [])
    ++ (if upd_fire S c rest.head? then
          [if is_expansions_update_or_fn S c then
             Viol.expUpdate idx (context_add_fn (context ++ ", command " ++ toString idx) (some c))
           else
             Viol.timeoutUpdate idx (context_add_fn (context ++ ", command " ++ toString idx) (some c))]
        else [])
    ++ simple_check S context (subSeen || is_subprocess_exec_or_fn S c) sw (warned || wf) (idx + 1) rest

/-- The update branch of the scan in isolation: the update/timeout violations
it emits, in order.  This branch reads none of the scan flags, so its
emissions are a function of the list alone. -/
def upd_trace (S : FnSets) (context : String) : Nat → List Yaml → List Viol
  | _, [] => []
  | idx, c :: rest =>
    (if upd_fire S c rest.head? then
       [if is_expansions_update_or_fn S c then
          Viol.expUpdate idx (context_add_fn (context ++ ", command " ++ toString idx) (some c))
        else
          Viol.timeoutUpdate idx (context_add_fn (context ++ ", command " ++ toString idx) (some c))]
     else [])
    ++ upd_trace S context (idx + 1) rest

/-- The first script-execution step of a list that no earlier expansions-write
step guards, together with its offset: the warning branch of the scan fires
exactly there. -/
def first_unguarded (S : FnSets) : List Yaml → Option (Nat × Yaml)
  | [] => none
  | c :: rest =>
    if is_subprocess_exec_or_fn S c then some (0, c)
    else if is_expansions_write_or_fn S c then none
    else (first_unguarded S rest).map (fun p => (p.1 + 1, p.2))

/-- Modelled from the spec: the context label of a task, built from its
`name` when present. -/
def taskContext (idx : Nat) (t : Yaml) : String :=
  match t.lookup "name" with
  | some (.str n) => "tasks." ++ n
  | _ => "tasks[" ++ toString idx ++ "]"

/-- Modelled from the spec: the command lists carried by one task: its
`commands` body and its hook blocks. -/
def taskKeys : List String :=
  ["commands", "setup_task", "setup_group", "teardown_task", "teardown_group", "timeout"]

/-- Modelled from the spec: the (context, command-list) pairs of the `tasks`
entry; a missing `tasks` key yields the empty task set. -/
def task_command_lists (yaml : Yaml) : List (String × Yaml) :=
  match yaml.lookup "tasks" with
  | some (.list ts) =>
      ts.enum.flatMap (fun it =>
        taskKeys.filterMap (fun k =>
          (it.2.lookup k).map (fun v => (taskContext it.1 it.2 ++ "." ++ k, v))))
  | _ => []

/-- Modelled from the spec: the global `pre`, `post` and `timeout` blocks. -/
def global_command_lists (yaml : Yaml) : List (String × Yaml) :=
  ["pre", "post", "timeout"].filterMap (fun k => (yaml.lookup k).map (fun v => (k, v)))

/-- Modelled from the spec: every function body, dict- or list-form (the rule
skips dict-form bodies itself with an isinstance test). -/
def function_command_lists (yaml : Yaml) : List (String × Yaml) :=
  match yaml.lookup "functions" with
  | some (.map kvs) => kvs.map (fun kv => ("functions." ++ kv.1, kv.2))
  | _ => []

/-- Modelled from the spec: `helpers.iterate_command_lists` is absent from the
sources.  Per the spec it yields a (context label, command list) pair for
every command-list location of the document: the global pre/post/timeout
blocks, the task bodies and hooks, and the function bodies. -/
def iterate_command_lists (yaml : Yaml) : List (String × Yaml) :=
  global_command_lists yaml ++ task_command_lists yaml ++ function_command_lists yaml

/-- Modelled from the spec: `helpers.iterate_fn_calls_context` is absent from
the sources.  Per the spec it yields a (context, command) pair for every
direct function-call step (a command carrying a `func` key) inside the
document command lists; the third component of the source triple is unused
by the rule and dropped here. -/
def iterate_fn_calls_context (yaml : Yaml) : List (String × Yaml) :=
  (iterate_command_lists yaml).flatMap (fun p =>
    match p.2 with
    | .list cmds =>
        cmds.enum.filterMap (fun ic =>
          if (ic.2.lookup "func").isSome then
            some (p.1 ++ ", command " ++ toString ic.1, ic.2)
          else none)
    | _ => [])

/-- The classification phase of `__call__`: when the document has a
`functions` key its value is iterated with `.items()`, which is only defined
on a mapping (a sequence or scalar there raises an AttributeError in the
source); without the key, classification is skipped. -/
def classified_sets (yaml : Yaml) : Except String FnSets :=
  match yaml.lookup "functions" with
  | some (.map kvs) => .ok (classifyFunctions kvs)
  | some _ => .error "AttributeError: the functions value has no attribute items"
  | none => .ok emptyFnSets

/-- The command-list phase of `__call__`: every iterated command list is
checked, dict-form bodies are skipped (`isinstance(commands, dict): continue`),
and shapes that are neither sequences nor mappings hold no commands. -/
def command_list_errors (S : FnSets) (yaml : Yaml) : List String :=
  (iterate_command_lists yaml).flatMap (fun p =>
    match p.2 with
    | .map _ => []
    | .list cmds => check_command_list S p.1 cmds
    | _ => [])

/-- The dangerous-call condition of the call-site phase: the called function
is classified into `subprocess_exec_fns` and the call carries a truthy
(non-empty) `vars` mapping. -/
def is_dangerous_call (S : FnSets) (c : Yaml) : Bool :=
  (match c.lookup "func" with
   | some (.str s) => S.subprocess_exec_fns.contains s
   | _ => false)
  && (match c.lookup "vars" with
      | some v => v.truthy
      | none => false)

/-- The call-site phase of `__call__`: one dangerous-function message per
qualifying call site. -/
def call_site_errors (S : FnSets) (yaml : Yaml) : List String :=
  (iterate_fn_calls_context yaml).filterMap (fun p =>
    if is_dangerous_call S p.2 then
      some (out_message_dangerous_function S.expansions_write_fns p.1)
    else none)

/-- Translation of `RequiredExpansionsWrite.defaults`. -/
def defaults : Yaml :=
  Yaml.map [("regex", Yaml.str ".*\\/evergreen\\/.*\\.sh")]

/-- Translation of `RequiredExpansionsWrite.__call__`: classify the functions,
check every command list, then check every call site.  The `config` parameter
is part of the signature but is never read by the body, exactly as in the
source.  The result is the error list, or the exception the classification
phase raises on a non-mapping `functions` value. -/
def call (config : Yaml) (yaml : Yaml) : Except String (List String) :=
  match classified_sets yaml with
  | .error e => .error e
  | .ok S => .ok (command_list_errors S yaml ++ call_site_errors S yaml)


/-- A sample script-execution command (a `subprocess.exec` step running an
evergreen shell script). -/
def sampleSubCmd : Yaml :=
  Yaml.map [("command", Yaml.str "subprocess.exec"),
    ("params", Yaml.map [("args", Yaml.list [Yaml.str "src/evergreen/run_task.sh"])])]

/-- A sample expansions-write command. -/
def sampleWriteCmd : Yaml :=
  Yaml.map [("command", Yaml.str "expansions.write"),
    ("params", Yaml.map [("file", Yaml.str "expansions.yml"), ("redacted", Yaml.bool true)])]

/-- A sample expansions-update command. -/
def sampleUpdCmd : Yaml := Yaml.map [("command", Yaml.str "expansions.update")]

/-- A sample unrelated shell command. -/
def sampleShellCmd : Yaml := Yaml.map [("command", Yaml.str "shell.exec")]

/-- A sample document with one task running an evergreen script with no
preceding expansions write. -/
def docEvergreenExec : Yaml :=
  Yaml.map [("tasks", Yaml.list [Yaml.map [("commands", Yaml.list [sampleSubCmd])]])]

/-- A sample document defining a dict-form subprocess-exec function and
calling it with call-time variables and no preceding expansions write. -/
def docFnCall : Yaml :=
  Yaml.map [("functions", Yaml.map [("run script", sampleSubCmd)]),
    ("tasks", Yaml.list [Yaml.map [("commands", Yaml.list
      [Yaml.map [("func", Yaml.str "run script"),
        ("vars", Yaml.map [("a", Yaml.str "b")])]])]])]

/-- The scan invariant: both recorded indices are below the current position,
and while no warning has been issued, a recorded first script-execution index
has a recorded expansions-write index strictly before it.  The warning branch
fires at the first script-execution step whenever no write precedes it, which
is what makes the last clause hold. -/
def StateOK (st : ScanState) (bound : Nat) : Prop :=
  (∀ i, st.first_subprocess = some i → i < bound)
  ∧ (∀ j, st.first_exp_write = some j → j < bound)
  ∧ (st.warned_subprocess = false → ∀ i, st.first_subprocess = some i →
      ∃ j, st.first_exp_write = some j ∧ j < i)


/-!  The checker above is total: it treats malformed shapes as non-matching
steps.  The source is not total there — the membership test
`"func" in command and command["func"] in fns` and the `enumerate(commands)`
loop raise TypeError on some shapes.  The error-aware variants below model
those paths; on well-shaped documents they agree with the total checker
(`scan_stepE_ok` and its corollaries below). -/

/-- Python membership test of the `_is_*_or_fn` helpers
(`"func" in command and command["func"] in fns`), with its error paths: for a
mapping, a func value that is a sequence or mapping is unhashable and the set
test raises; for a string, the in-test is a substring test and a hit makes
the string indexing raise; for a sequence, a `func` element makes the list
indexing raise; other shapes are not iterable. -/
def fn_membership (fns : List String) (c : Yaml) : Except String Bool :=
  match c with
  | .map _ =>
      match c.lookup "func" with
      | none => .ok false
      | some (.str s) => .ok (fns.contains s)
      | some (.list _) => .error "TypeError: unhashable type: list"
      | some (.map _) => .error "TypeError: unhashable type: dict"
      | some _ => .ok false
  | .str s =>
      if strContains s "func" then .error "TypeError: string indices must be integers"
      else .ok false
  | .list l =>
      if l.any (fun e => match e with | .str s => s == "func" | _ => false) then
        .error "TypeError: list indices must be integers"
      else .ok false
  | _ => .error "TypeError: argument of type int is not iterable"

/-- Error-aware `_is_expansions_write_or_fn`: the modelled match helper is
total, and the `or` short-circuits past the membership test when it holds. -/
def is_expansions_write_or_fnE (S : FnSets) (c : Yaml) : Except String Bool :=
  if match_expansions_write c then .ok true else fn_membership S.expansions_write_fns c

/-- Error-aware `_is_subprocess_exec_or_fn`. -/
def is_subprocess_exec_or_fnE (S : FnSets) (c : Yaml) : Except String Bool :=
  if match_subprocess_exec c then .ok true else fn_membership S.subprocess_exec_fns c

/-- Error-aware `_is_expansions_update_or_fn`. -/
def is_expansions_update_or_fnE (S : FnSets) (c : Yaml) : Except String Bool :=
  if match_expansions_update c then .ok true else fn_membership S.expansions_update_fns c

/-- Error-aware `_is_timeout_update_or_fn`. -/
def is_timeout_update_or_fnE (S : FnSets) (c : Yaml) : Except String Bool :=
  if match_timeout_update c then .ok true else fn_membership S.timeout_update_fns c

/-- Error-aware loop iteration: the predicates are evaluated in the order of
the source (the first branch, the `elif`, the warning branch, then the update
branch with its look at the next command), each short-circuited exactly as
the Python conditions are, and the first raising evaluation aborts. -/
def scan_stepE (S : FnSets) (context : String) (st : ScanState) (idx : Nat)
    (c : Yaml) (next? : Option Yaml) : Except String ScanState :=
  (if st.first_subprocess.isNone then is_subprocess_exec_or_fnE S c else Except.ok false).bind
    fun fire1 =>
  (if !fire1 && st.first_exp_write.isNone then is_expansions_write_or_fnE S c
   else Except.ok false).bind fun fire2 =>
  (if !st.warned_subprocess then is_subprocess_exec_or_fnE S c else Except.ok false).bind
    fun isSubAgain =>
  (is_expansions_update_or_fnE S c).bind fun isU =>
  (if isU then Except.ok true else is_timeout_update_or_fnE S c).bind fun isUpdate =>
  (if isUpdate then
     match next? with
     | none => Except.ok true
     | some nxt => (is_expansions_write_or_fnE S nxt).map (fun wn => !wn)
   else Except.ok false).bind fun badN =>
  Except.ok
    { first_subprocess := if fire1 then some idx else st.first_subprocess
      first_subprocess_cmd := if fire1 then some c else st.first_subprocess_cmd
      first_exp_write := if fire2 then some idx else st.first_exp_write
      warned_subprocess := st.warned_subprocess
        || (isSubAgain && (if fire2 then some idx else st.first_exp_write).isNone)
      out := st.out
        ++ ((if isSubAgain && (if fire2 then some idx else st.first_exp_write).isNone then
               [Viol.subproc idx (context_add_fn (context ++ ", command " ++ toString idx)
                 (some c))]
             else [])
          ++ (if badN then
                [if isU then
                   Viol.expUpdate idx (context_add_fn (context ++ ", command " ++ toString idx)
                     (some c))
                 else
                   Viol.timeoutUpdate idx (context_add_fn (context ++ ", command " ++ toString idx)
                     (some c))]
              else [])) }

/-- Error-aware scan loop. -/
def scan_listE (S : FnSets) (context : String) : ScanState → Nat → List Yaml →
    Except String ScanState
  | st, _, [] => .ok st
  | st, idx, c :: rest =>
    match scan_stepE S context st idx c rest.head? with
    | .error e => .error e
    | .ok st2 => scan_listE S context st2 (idx + 1) rest

/-- Error-aware `_check_command_list`. -/
def check_command_listE (S : FnSets) (context : String) (commands : List Yaml) :
    Except String (List String) :=
  (scan_listE S context initScan 0 commands).map (fun fin =>
    (fin.out ++ scan_fallback S context fin).map (renderViol S.expansions_write_fns))

/-- Error-aware command-list phase: dict-form bodies are skipped, sequences
are checked, a string value is enumerated character by character and no
character matches anything (so it contributes nothing), and any other shape
makes `enumerate(commands)` raise. -/
def command_lists_errorsE (S : FnSets) : List (String × Yaml) → Except String (List String)
  | [] => .ok []
  | p :: rest =>
    match p.2 with
    | .map _ => command_lists_errorsE S rest
    | .list cmds =>
      match check_command_listE S p.1 cmds with
      | .error e => .error e
      | .ok errs => (command_lists_errorsE S rest).map (fun more => errs ++ more)
    | .str _ => command_lists_errorsE S rest
    | _ => .error "TypeError: argument of type int is not iterable"

/-- Error-aware call-site phase: `command["func"] in subprocess_exec_fns`
raises on an unhashable func value; otherwise one dangerous-call message per
qualifying site. -/
def call_sites_errorsE (S : FnSets) : List (String × Yaml) → Except String (List String)
  | [] => .ok []
  | p :: rest =>
    match p.2.lookup "func" with
    | some (.list _) => .error "TypeError: unhashable type: list"
    | some (.map _) => .error "TypeError: unhashable type: dict"
    | some v =>
      if (match v with | .str s => S.subprocess_exec_fns.contains s | _ => false)
          && (match p.2.lookup "vars" with | some w => w.truthy | none => false) then
        (call_sites_errorsE S rest).map
          (fun more => out_message_dangerous_function S.expansions_write_fns p.1 :: more)
      else call_sites_errorsE S rest
    | none => call_sites_errorsE S rest

/-- Error-aware `__call__`. -/
def callE (config : Yaml) (yaml : Yaml) : Except String (List String) :=
  match classified_sets yaml with
  | .error e => .error e
  | .ok S =>
    match command_lists_errorsE S (iterate_command_lists yaml) with
    | .error e => .error e
    | .ok a =>
      match call_sites_errorsE S (iterate_fn_calls_context yaml) with
      | .error e => .error e
      | .ok b => .ok (a ++ b)

/-- A command shape on which the membership test of the source cannot raise:
a mapping whose func value, if present, is hashable (not a sequence or
mapping). -/
def commandShapeOK (c : Yaml) : Bool :=
  match c with
  | .map _ =>
      match c.lookup "func" with
      | some (.list _) => false
      | some (.map _) => false
      | _ => true
  | _ => false

/-- A command-list value on which the source cannot raise: a mapping (which
the rule skips), a string (whose characters match nothing), or a sequence of
well-shaped commands. -/
def commandsShapeOK : Yaml → Bool
  | .map _ => true
  | .str _ => true
  | .list cmds => cmds.all commandShapeOK
  | _ => false

/-! Basic facts about the scan. -/

/-- An option is none exactly when it is not some. -/
theorem opt_isNone_not (o : Option α) : o.isNone = !o.isSome := by
  cases o <;> rfl

/-- The out field of one scan step: the previous violations followed by the
violations this step emits. -/
theorem scan_step_out (S : FnSets) (context : String) (st : ScanState) (idx : Nat)
    (c : Yaml) (next? : Option Yaml) :
    (scan_step S context st idx c next?).out = st.out ++ step_viols S context st idx c next? := rfl

/-- The warned flag of one scan step. -/
theorem scan_step_warned (S : FnSets) (context : String) (st : ScanState) (idx : Nat)
    (c : Yaml) (next? : Option Yaml) :
    (scan_step S context st idx c next?).warned_subprocess
      = (st.warned_subprocess || fire_warn S st idx c) := rfl

/-- Whether a first script-execution step has been recorded after one step. -/
theorem scan_step_fsub_isSome (S : FnSets) (context : String) (st : ScanState) (idx : Nat)
    (c : Yaml) (next? : Option Yaml) :
    (scan_step S context st idx c next?).first_subprocess.isSome
      = (st.first_subprocess.isSome || is_subprocess_exec_or_fn S c) := by
  unfold scan_step fire_first_sub
  cases hs : st.first_subprocess <;> cases hb : is_subprocess_exec_or_fn S c <;>
    simp [hs, hb]

/-- Whether a first expansions-write step has been recorded after the
`if`/`elif` pair, in terms of the boolean shadow of the state. -/
theorem new_fw_isSome (S : FnSets) (st : ScanState) (idx : Nat) (c : Yaml) :
    (new_first_write S st idx c).isSome
      = (st.first_exp_write.isSome
          || (!(!st.first_subprocess.isSome && is_subprocess_exec_or_fn S c)
              && is_expansions_write_or_fn S c)) := by
  unfold new_first_write fire_first_write fire_first_sub
  cases hs : st.first_subprocess <;> cases hw : st.first_exp_write <;>
    cases hb : is_subprocess_exec_or_fn S c <;> cases hc : is_expansions_write_or_fn S c <;>
      simp [hs, hw, hb, hc]

/-- The warning condition in terms of the boolean shadow of the state. -/
theorem fire_warn_eq (S : FnSets) (st : ScanState) (idx : Nat) (c : Yaml) :
    fire_warn S st idx c
      = (!st.warned_subprocess && is_subprocess_exec_or_fn S c
          && !(st.first_exp_write.isSome
               || (!(!st.first_subprocess.isSome && is_subprocess_exec_or_fn S c)
                   && is_expansions_write_or_fn S c))) := by
  unfold fire_warn
  rw [opt_isNone_not, new_fw_isSome]

/-- The violation trace of the scan is `simple_check` on the boolean shadow of
the state. -/
theorem scan_list_out_eq (S : FnSets) (context : String) :
    ∀ (cs : List Yaml) (st : ScanState) (idx : Nat),
    (scan_list S context st idx cs).out
      = st.out ++ simple_check S context st.first_subprocess.isSome
          st.first_exp_write.isSome st.warned_subprocess idx cs := by
  intro cs
  induction cs with
  | nil => intro st idx; simp [scan_list, simple_check]
  | cons c rest ih =>
    intro st idx
    have hfw : (scan_step S context st idx c rest.head?).first_exp_write
        = new_first_write S st idx c := rfl
    rw [scan_list, ih, scan_step_out, simple_check]
    rw [scan_step_fsub_isSome, hfw, new_fw_isSome, scan_step_warned, fire_warn_eq]
    simp only [step_viols, fire_warn_eq, List.append_assoc]

/-- The initial state satisfies the invariant. -/
theorem stateOK_init : StateOK initScan 0 := by
  refine ⟨?_, ?_, ?_⟩
  · intro i h; simp [initScan] at h
  · intro j h; simp [initScan] at h
  · intro _ i h; simp [initScan] at h

/-- One scan step preserves the invariant. -/
theorem stateOK_step (S : FnSets) (context : String) (st : ScanState) (idx : Nat)
    (c : Yaml) (next? : Option Yaml) (h : StateOK st idx) :
    StateOK (scan_step S context st idx c next?) (idx + 1) := by
  obtain ⟨h1, h2, h3⟩ := h
  refine ⟨?_, ?_, ?_⟩
  · intro i hi
    by_cases hf : fire_first_sub S st c = true
    · simp [scan_step, hf] at hi; omega
    · simp [scan_step, hf] at hi
      exact Nat.lt_succ_of_lt (h1 i hi)
  · intro j hj
    by_cases hf : fire_first_write S st c = true
    · simp [scan_step, new_first_write, hf] at hj; omega
    · simp [scan_step, new_first_write, hf] at hj
      exact Nat.lt_succ_of_lt (h2 j hj)
  · intro hw i hi
    rw [scan_step_warned] at hw
    rw [Bool.or_eq_false_iff] at hw
    obtain ⟨hw1, hw2⟩ := hw
    by_cases hf : fire_first_sub S st c = true
    · -- the step records this index as the first script execution
      simp [scan_step, hf] at hi
      -- the warning did not fire although the step is a script execution and
      -- the flag is clear, so a write must already be recorded
      have hsub : is_subprocess_exec_or_fn S c = true := by
        unfold fire_first_sub at hf
        exact (Bool.and_eq_true _ _ |>.mp hf).2
      unfold fire_warn at hw2
      rw [hw1, hsub] at hw2
      simp at hw2
      obtain ⟨j, hj⟩ := Option.isSome_iff_exists.mp hw2
      -- the elif cannot have fired at an index where the first branch fired
      have hnf : fire_first_write S st c = false := by
        unfold fire_first_write
        rw [hf]; rfl
      simp only [new_first_write, hnf, Bool.false_eq_true, if_false] at hj
      refine ⟨j, ?_, ?_⟩
      · simp [scan_step, new_first_write, hnf, hj]
      · have := h2 j hj; omega
    · -- the first-script-execution record is unchanged
      simp [scan_step, hf] at hi
      obtain ⟨j, hj, hlt⟩ := h3 hw1 i hi
      refine ⟨j, ?_, hlt⟩
      have hnf : fire_first_write S st c = false := by
        unfold fire_first_write
        rw [hj]
        simp [Option.isNone]
      simp [scan_step, new_first_write, hnf, hj]

/-- The scan preserves the invariant. -/
theorem stateOK_scan (S : FnSets) (context : String) :
    ∀ (cs : List Yaml) (st : ScanState) (idx : Nat), StateOK st idx →
    StateOK (scan_list S context st idx cs) (idx + cs.length) := by
  intro cs
  induction cs with
  | nil => intro st idx h; simpa [scan_list]
  | cons c rest ih =>
    intro st idx h
    rw [scan_list]
    have := ih (scan_step S context st idx c rest.head?) (idx + 1)
      (stateOK_step S context st idx c rest.head? h)
    have harith : idx + 1 + rest.length = idx + (c :: rest).length := by
      simp; omega
    rwa [harith] at this

/-- Under the invariant the post-scan fallback emits nothing: a first
script-execution index below the first expansions-write index forces the
warned flag. -/
theorem fallback_nil_of_stateOK (S : FnSets) (context : String) (st : ScanState)
    (b : Nat) (h : StateOK st b) : scan_fallback S context st = [] := by
  obtain ⟨_, _, h3⟩ := h
  unfold scan_fallback
  cases hfs : st.first_subprocess with
  | none => rfl
  | some i =>
    cases hfw : st.first_exp_write with
    | none => rfl
    | some j =>
      simp only
      by_cases hc : st.warned_subprocess = false ∧ i < j
      · obtain ⟨j2, hj2, hlt⟩ := h3 hc.1 i hfs
        rw [hfw] at hj2
        cases hj2
        omega
      · simp [hc]

/-- The post-scan fallback of `_check_command_list` is unreachable: it emits
nothing for any command list. -/
theorem scan_fallback_nil (S : FnSets) (context : String) (commands : List Yaml) :
    scan_fallback S context (scan_list S context initScan 0 commands) = [] :=
  fallback_nil_of_stateOK S context _ _
    (stateOK_scan S context commands initScan 0 stateOK_init)

/-- The tagged trace of the checker is `simple_check` started on the clear
flags. -/
theorem checkV_eq_simple (S : FnSets) (context : String) (commands : List Yaml) :
    check_command_listV S context commands
      = simple_check S context false false false 0 commands := by
  unfold check_command_listV
  rw [scan_fallback_nil, scan_list_out_eq]
  simp [initScan]

/-- The update branch emits no script-execution violation. -/
theorem upd_viol_not_sub (b : Bool) (i : Nat) (f : String) :
    Viol.isSubprocViol (if b = true then Viol.expUpdate i f else Viol.timeoutUpdate i f) = false := by
  cases b <;> rfl

/-- Filtering a conditional singleton whose element fails the predicate. -/
theorem filter_ite_single (p : α → Bool) (b : Bool) (x : α) (h : p x = false) :
    List.filter p (if b = true then [x] else []) = [] := by
  cases b <;> simp [h]

/-- Once the warned flag is set, the scan emits no further script-execution
violation. -/
theorem filter_sub_warned (S : FnSets) (context : String) :
    ∀ (cs : List Yaml) (ss sw : Bool) (idx : Nat),
    (simple_check S context ss sw true idx cs).filter Viol.isSubprocViol = [] := by
  intro cs
  induction cs with
  | nil => intro ss sw idx; simp [simple_check]
  | cons c rest ih =>
    intro ss sw idx
    simp only [simple_check, Bool.not_true, Bool.false_and, Bool.false_eq_true, if_false,
      Bool.or_false, List.nil_append, List.filter_append, ih]
    rw [filter_ite_single _ _ _ (upd_viol_not_sub _ _ _)]
    simp

/-- Once an expansions-write step is recorded, the scan emits no further
script-execution violation. -/
theorem filter_sub_seen_write (S : FnSets) (context : String) :
    ∀ (cs : List Yaml) (ss w : Bool) (idx : Nat),
    (simple_check S context ss true w idx cs).filter Viol.isSubprocViol = [] := by
  intro cs
  induction cs with
  | nil => intro ss w idx; simp [simple_check]
  | cons c rest ih =>
    intro ss w idx
    simp only [simple_check, Bool.true_or, Bool.not_true, Bool.and_false, Bool.false_eq_true,
      if_false, List.nil_append, List.filter_append, ih]
    rw [filter_ite_single _ _ _ (upd_viol_not_sub _ _ _)]
    simp

/-- The script-execution violations of the scan, on clear flags: exactly one,
at the first script-execution step that no earlier expansions-write step
guards, when there is one; none otherwise. -/
theorem filter_sub_main (S : FnSets) (context : String) :
    ∀ (cs : List Yaml) (idx : Nat),
    (simple_check S context false false false idx cs).filter Viol.isSubprocViol =
      (match first_unguarded S cs with
       | some p => [Viol.subproc (idx + p.1)
           (context_add_fn (context ++ ", command " ++ toString (idx + p.1)) (some p.2))]
       | none => []) := by
  intro cs
  induction cs with
  | nil => intro idx; simp [simple_check, first_unguarded]
  | cons c rest ih =>
    intro idx
    by_cases hsub : is_subprocess_exec_or_fn S c = true
    · simp only [simple_check, Bool.not_false, Bool.true_and, hsub, Bool.and_true,
        Bool.false_or, Bool.not_true, Bool.false_and, Bool.and_false, Bool.or_false,
        Bool.true_or, List.filter_append]
      rw [filter_sub_warned, filter_ite_single _ _ _ (upd_viol_not_sub _ _ _)]
      simp [first_unguarded, hsub, List.filter, Viol.isSubprocViol]
    · by_cases hwr : is_expansions_write_or_fn S c = true
      · simp only [simple_check, hsub, hwr, Bool.not_false, Bool.true_and, Bool.false_and,
          Bool.and_false, Bool.and_true, Bool.false_or, Bool.not_true, Bool.false_eq_true,
          if_false, Bool.or_false, List.nil_append, List.filter_append]
        rw [filter_sub_seen_write, filter_ite_single _ _ _ (upd_viol_not_sub _ _ _)]
        simp [first_unguarded, hsub, hwr]
      · rw [Bool.not_eq_true] at hsub hwr
        simp only [simple_check, hsub, hwr, Bool.not_false, Bool.true_and, Bool.false_and,
          Bool.and_false, Bool.false_or, Bool.or_false, Bool.false_eq_true, if_false,
          List.nil_append, List.filter_append]
        rw [filter_ite_single _ _ _ (upd_viol_not_sub _ _ _), ih]
        cases h : first_unguarded S rest with
        | none => simp [first_unguarded, hsub, hwr, h]
        | some p =>
          have harith : idx + 1 + p.1 = idx + (p.1 + 1) := by omega
          simp [first_unguarded, hsub, hwr, h, harith]

/-- What a found unguarded script-execution step means: it is a
script-execution step and no earlier step is a script execution or an
expansions write. -/
theorem first_unguarded_spec (S : FnSets) :
    ∀ (cs : List Yaml) (k : Nat) (c : Yaml),
    first_unguarded S cs = some (k, c) →
    k < cs.length ∧ cs.getD k .null = c
      ∧ is_subprocess_exec_or_fn S (cs.getD k .null) = true
      ∧ (∀ j, j < k → is_subprocess_exec_or_fn S (cs.getD j .null) = false)
      ∧ (∀ j, j < k → is_expansions_write_or_fn S (cs.getD j .null) = false) := by
  intro cs
  induction cs with
  | nil => intro k c h; simp [first_unguarded] at h
  | cons d rest ih =>
    intro k c h
    by_cases hsub : is_subprocess_exec_or_fn S d = true
    · simp [first_unguarded, hsub] at h
      obtain ⟨hk, hc⟩ := h
      subst hk; subst hc
      refine ⟨by simp, rfl, by simpa, ?_, ?_⟩ <;> intro j hj <;> omega
    · by_cases hwr : is_expansions_write_or_fn S d = true
      · simp [first_unguarded, hsub, hwr] at h
      · rw [Bool.not_eq_true] at hsub hwr
        simp [first_unguarded, hsub, hwr] at h
        obtain ⟨a, hp, hk⟩ := h
        subst hk
        obtain ⟨h1, h2, h3, h4, h5⟩ := ih a c hp
        refine ⟨by simp; omega, by simpa using h2, by simpa using h3, ?_, ?_⟩
        · intro j hj
          match j with
          | 0 => simpa using hsub
          | j + 1 => simpa using h4 j (by omega)
        · intro j hj
          match j with
          | 0 => simpa using hwr
          | j + 1 => simpa using h5 j (by omega)

/-- When no unguarded script-execution step is found, every script-execution
step has an earlier expansions-write step. -/
theorem first_unguarded_none (S : FnSets) :
    ∀ (cs : List Yaml),
    first_unguarded S cs = none →
    ∀ i, i < cs.length → is_subprocess_exec_or_fn S (cs.getD i .null) = true →
    ∃ j, j < i ∧ is_expansions_write_or_fn S (cs.getD j .null) = true := by
  intro cs
  induction cs with
  | nil => intro _ i hi; exact absurd hi (by simp)
  | cons d rest ih =>
    intro h i hi hsubi
    by_cases hsub : is_subprocess_exec_or_fn S d = true
    · simp [first_unguarded, hsub] at h
    · by_cases hwr : is_expansions_write_or_fn S d = true
      · match i with
        | 0 => rw [Bool.not_eq_true] at hsub; simp [hsub] at hsubi
        | i + 1 => exact ⟨0, by omega, by simpa using hwr⟩
      · rw [Bool.not_eq_true] at hsub hwr
        simp [first_unguarded, hsub, hwr] at h
        match i with
        | 0 => simp [hsub] at hsubi
        | i + 1 =>
          obtain ⟨j, hj, hjw⟩ := ih (by simpa using h) i (by simpa using hi)
            (by simpa using hsubi)
          exact ⟨j + 1, by omega, by simpa using hjw⟩

/-- The first script-execution step, when nothing before it is a script
execution or an expansions write, is the unguarded step the scan finds. -/
theorem first_unguarded_of (S : FnSets) :
    ∀ (cs : List Yaml) (i : Nat),
    i < cs.length →
    is_subprocess_exec_or_fn S (cs.getD i .null) = true →
    (∀ k, k < i → is_subprocess_exec_or_fn S (cs.getD k .null) = false) →
    (∀ k, k < i → is_expansions_write_or_fn S (cs.getD k .null) = false) →
    first_unguarded S cs = some (i, cs.getD i .null) := by
  intro cs
  induction cs with
  | nil => intro i hi; simp at hi
  | cons d rest ih =>
    intro i hi hsubi hks hkw
    match i with
    | 0 =>
      simp at hsubi
      simp [first_unguarded, hsubi]
    | i + 1 =>
      have hd_sub : is_subprocess_exec_or_fn S d = false := by
        simpa using hks 0 (by omega)
      have hd_wr : is_expansions_write_or_fn S d = false := by
        simpa using hkw 0 (by omega)
      have := ih i (by simpa using hi) (by simpa using hsubi)
        (fun k hk => by simpa using hks (k + 1) (by omega))
        (fun k hk => by simpa using hkw (k + 1) (by omega))
      simp [first_unguarded, hd_sub, hd_wr, this]

/-- C1: for every command list checked by the rule, a missing
expansions-write-before-script-execution violation referencing the first
script-execution step is emitted if and only if the list contains a
script-execution step (direct or via a classified function) with no earlier
expansions-write step (direct or via a classified function); and at most one
such violation is emitted per list — the filtered trace is exactly the one
singleton, however many script-execution steps precede the first write. -/
theorem c1_exec_requires_prior_write (S : FnSets) (context : String) (commands : List Yaml) :
    check_command_list S context commands
      = (check_command_listV S context commands).map (renderViol S.expansions_write_fns)
    ∧ (∀ i, i < commands.length →
        is_subprocess_exec_or_fn S (commands.getD i .null) = true →
        (∀ k, k < i → is_subprocess_exec_or_fn S (commands.getD k .null) = false) →
        (∀ k, k < i → is_expansions_write_or_fn S (commands.getD k .null) = false) →
        (check_command_listV S context commands).filter Viol.isSubprocViol
          = [Viol.subproc i (context_add_fn (context ++ ", command " ++ toString i)
              (some (commands.getD i .null)))])
    ∧ ((∃ i, i < commands.length
          ∧ is_subprocess_exec_or_fn S (commands.getD i .null) = true
          ∧ ∀ k, k < i → is_expansions_write_or_fn S (commands.getD k .null) = false) →
        (check_command_listV S context commands).filter Viol.isSubprocViol ≠ [])
    ∧ (¬(∃ i, i < commands.length
          ∧ is_subprocess_exec_or_fn S (commands.getD i .null) = true
          ∧ ∀ k, k < i → is_expansions_write_or_fn S (commands.getD k .null) = false) →
        (check_command_listV S context commands).filter Viol.isSubprocViol = []) := by
  refine ⟨rfl, ?_, ?_, ?_⟩
  · intro i hi hsub hks hkw
    rw [checkV_eq_simple, filter_sub_main]
    rw [first_unguarded_of S commands i hi hsub hks hkw]
    simp
  · intro hex
    have hP : ∃ n, n < commands.length
        ∧ is_subprocess_exec_or_fn S (commands.getD n .null) = true := by
      obtain ⟨i, hi, hs, _⟩ := hex
      exact ⟨i, hi, hs⟩
    classical
    obtain ⟨hi0len, hi0sub⟩ := Nat.find_spec hP
    obtain ⟨i, hi, hs, hw⟩ := hex
    have hle : Nat.find hP ≤ i := Nat.find_min' hP ⟨hi, hs⟩
    have hks : ∀ k, k < Nat.find hP →
        is_subprocess_exec_or_fn S (commands.getD k .null) = false := by
      intro k hk
      have hmin := Nat.find_min hP hk
      by_contra hcon
      rw [Bool.not_eq_false] at hcon
      exact hmin ⟨by omega, hcon⟩
    have hkw : ∀ k, k < Nat.find hP →
        is_expansions_write_or_fn S (commands.getD k .null) = false := by
      intro k hk
      exact hw k (by omega)
    have hfu := first_unguarded_of S commands (Nat.find hP) hi0len hi0sub hks hkw
    rw [checkV_eq_simple, filter_sub_main, hfu]
    simp
  · intro hnex
    rw [checkV_eq_simple, filter_sub_main]
    cases hfu : first_unguarded S commands with
    | none => rfl
    | some p =>
      obtain ⟨h1, _, h3, _, h5⟩ := first_unguarded_spec S commands p.1 p.2 (by simpa using hfu)
      exact absurd ⟨p.1, h1, h3, h5⟩ hnex

/-- C9: under the hypothesis that no single command is both a script-execution
step and an expansions-write step, the post-scan fallback branch of
`_check_command_list` is unreachable: the checker with that branch removed
returns the same violations, at the string level and at the tagged level.
(The proof does not even need the hypothesis: the warning branch always fires
at the first script-execution step whenever no write precedes it, so the
fallback condition is contradictory.) -/
theorem c9_fallback_unreachable (S : FnSets) (context : String) (commands : List Yaml)
    (hsep : ∀ c ∈ commands, ¬(is_subprocess_exec_or_fn S c = true
        ∧ is_expansions_write_or_fn S c = true)) :
    check_command_list S context commands = check_command_list_nofallback S context commands
    ∧ check_command_listV S context commands = check_command_listV_nofallback S context commands := by
  have h2 : check_command_listV S context commands
      = check_command_listV_nofallback S context commands := by
    unfold check_command_listV check_command_listV_nofallback
    rw [scan_fallback_nil]
    simp
  exact ⟨by unfold check_command_list check_command_list_nofallback; rw [h2], h2⟩

/-- A script-execution violation is not an update violation. -/
theorem sub_viol_not_upd (i : Nat) (f : String) :
    Viol.isUpdateViol (Viol.subproc i f) = false := rfl

/-- The update branch emits an update violation of one of the two wordings. -/
theorem upd_viol_is_upd (b : Bool) (i : Nat) (f : String) :
    Viol.isUpdateViol (if b = true then Viol.expUpdate i f else Viol.timeoutUpdate i f) = true := by
  cases b <;> rfl

/-- The update branch tags its violation with the index it fires at. -/
theorem upd_viol_at (b : Bool) (i t : Nat) (f : String) :
    Viol.isUpdateViolAt t (if b = true then Viol.expUpdate i f else Viol.timeoutUpdate i f)
      = (i == t) := by
  cases b <;> rfl

/-- Filtering a conditional singleton whose element satisfies the predicate. -/
theorem filter_ite_single_keep (p : α → Bool) (b : Bool) (x : α) (h : p x = true) :
    List.filter p (if b = true then [x] else []) = (if b = true then [x] else []) := by
  cases b <;> simp [h]

/-- The update violations of the scan are the update branch trace, whatever
the flags: the update branch reads none of them. -/
theorem filter_upd_simple (S : FnSets) (context : String) :
    ∀ (cs : List Yaml) (ss sw w : Bool) (idx : Nat),
    (simple_check S context ss sw w idx cs).filter Viol.isUpdateViol
      = upd_trace S context idx cs := by
  intro cs
  induction cs with
  | nil => intro ss sw w idx; simp [simple_check, upd_trace]
  | cons c rest ih =>
    intro ss sw w idx
    simp only [simple_check, upd_trace, List.filter_append]
    rw [filter_ite_single _ _ _ (sub_viol_not_upd _ _),
      filter_ite_single_keep _ _ _ (upd_viol_is_upd _ _ _), ih]
    simp

/-- The update branch trace has no violation tagged below its start index. -/
theorem upd_trace_count_low (S : FnSets) (context : String) :
    ∀ (cs : List Yaml) (i0 t : Nat), t < i0 →
    (upd_trace S context i0 cs).countP (Viol.isUpdateViolAt t) = 0 := by
  intro cs
  induction cs with
  | nil => intro i0 t _; simp [upd_trace]
  | cons c rest ih =>
    intro i0 t ht
    rw [upd_trace, List.countP_append]
    rw [ih (i0 + 1) t (by omega)]
    have hne : (i0 == t) = false := by simp; omega
    cases hf : upd_fire S c rest.head? <;>
      simp [List.countP_cons, upd_viol_at, hne]

/-- The update branch trace carries exactly one violation tagged to a
position where the update condition fires, and none where it does not. -/
theorem upd_trace_count (S : FnSets) (context : String) :
    ∀ (cs : List Yaml) (i0 k : Nat), k < cs.length →
    (upd_trace S context i0 cs).countP (Viol.isUpdateViolAt (i0 + k))
      = if upd_fire S (cs.getD k .null) cs[k + 1]? then 1 else 0 := by
  intro cs
  induction cs with
  | nil => intro i0 k hk; simp at hk
  | cons c rest ih =>
    intro i0 k hk
    rw [upd_trace, List.countP_append]
    match k with
    | 0 =>
      rw [upd_trace_count_low S context rest (i0 + 1) (i0 + 0) (by omega)]
      have h0 : (c :: rest).getD 0 Yaml.null = c := rfl
      have h1 : (c :: rest)[0 + 1]? = rest.head? := by
        cases rest <;> simp
      rw [h0, h1]
      have heq : (i0 == i0 + 0) = true := by simp
      cases hf : upd_fire S c rest.head? <;>
        simp [List.countP_cons, upd_viol_at, heq]
    | m + 1 =>
      have hne : (i0 == i0 + (m + 1)) = false := by simp
      have harith : i0 + (m + 1) = (i0 + 1) + m := by omega
      rw [harith, ih (i0 + 1) m (by simpa using hk)]
      have h0 : (c :: rest).getD (m + 1) Yaml.null = rest.getD m Yaml.null := by simp
      have h1 : (c :: rest)[(m + 1) + 1]? = rest[m + 1]? := by
        simp
      rw [h0, h1]
      rw [← harith] -- restore the tag in the head count
      cases hf : upd_fire S c rest.head? <;>
        simp [List.countP_cons, upd_viol_at, hne]

/-- The update branch trace contains the violation for each position where
the update condition fires, with the wording chosen by which predicate
triggered. -/
theorem upd_trace_mem (S : FnSets) (context : String) :
    ∀ (cs : List Yaml) (i0 k : Nat), k < cs.length →
    upd_fire S (cs.getD k .null) cs[k + 1]? = true →
    (if is_expansions_update_or_fn S (cs.getD k .null) = true then
       Viol.expUpdate (i0 + k) (context_add_fn (context ++ ", command " ++ toString (i0 + k))
         (some (cs.getD k .null)))
     else
       Viol.timeoutUpdate (i0 + k) (context_add_fn (context ++ ", command " ++ toString (i0 + k))
         (some (cs.getD k .null))))
      ∈ upd_trace S context i0 cs := by
  intro cs
  induction cs with
  | nil => intro i0 k hk; simp at hk
  | cons c rest ih =>
    intro i0 k hk hf
    rw [upd_trace]
    match k with
    | 0 =>
      have h0 : (c :: rest).getD 0 Yaml.null = c := rfl
      have h1 : (c :: rest)[0 + 1]? = rest.head? := by cases rest <;> simp
      rw [h0] at hf ⊢
      rw [h1] at hf
      rw [hf]
      apply List.mem_append_left
      simp
    | m + 1 =>
      apply List.mem_append_right
      have h0 : (c :: rest).getD (m + 1) Yaml.null = rest.getD m Yaml.null := by simp
      have h1 : (c :: rest)[(m + 1) + 1]? = rest[m + 1]? := by simp
      rw [h0] at hf ⊢
      rw [h1] at hf
      have harith : i0 + (m + 1) = (i0 + 1) + m := by omega
      rw [harith]
      exact ih (i0 + 1) m (by simpa using hk) hf

/-- Counting update violations in the checker trace reduces to counting them
in the update branch trace. -/
theorem countP_upd_check (S : FnSets) (context : String) (commands : List Yaml) (t : Nat) :
    (check_command_listV S context commands).countP (Viol.isUpdateViolAt t)
      = (upd_trace S context 0 commands).countP (Viol.isUpdateViolAt t) := by
  rw [checkV_eq_simple, ← filter_upd_simple S context commands false false false 0,
    List.countP_filter]
  have hfun : (fun a => Viol.isUpdateViolAt t a && Viol.isUpdateViol a)
      = Viol.isUpdateViolAt t := by
    funext v
    cases v <;> simp [Viol.isUpdateViolAt, Viol.isUpdateViol]
  rw [hfun]

/-- The two update wordings render different strings: the message mentions
the triggering command name twice, and the two names have different
lengths. -/
theorem out_message_update_wording (W : List String) (fc : String) :
    out_message_expansions_update W fc "expansions.update"
      ≠ out_message_expansions_update W fc "timeout.update" := by
  intro h
  have hl := congrArg String.length h
  simp only [out_message_expansions_update, String.length_append] at hl
  have e1 : ("expansions.update" : String).length = 17 := rfl
  have e2 : ("timeout.update" : String).length = 14 := rfl
  rw [e1, e2] at hl
  omega

/-- C2: for every command list and every index holding an expansions-update or
timeout-update step (direct or via a classified function), exactly one
violation tagged to that index is emitted when the next step is out of range
or is not an expansions-write step, and none when the next step is an
expansions-write step; each offending index is reported independently, and the
wording differs according to whether the expansions-update or the
timeout-update predicate triggered it. -/
theorem c2_update_followed_by_write (S : FnSets) (context : String) (commands : List Yaml)
    (idx : Nat) (hidx : idx < commands.length) :
    (((is_expansions_update_or_fn S (commands.getD idx .null)
        || is_timeout_update_or_fn S (commands.getD idx .null))
       && bad_next S commands[idx + 1]?) = true →
      ((check_command_listV S context commands).countP (Viol.isUpdateViolAt idx) = 1
       ∧ (is_expansions_update_or_fn S (commands.getD idx .null) = true →
            Viol.expUpdate idx (context_add_fn (context ++ ", command " ++ toString idx)
              (some (commands.getD idx .null))) ∈ check_command_listV S context commands)
       ∧ (is_expansions_update_or_fn S (commands.getD idx .null) = false →
            Viol.timeoutUpdate idx (context_add_fn (context ++ ", command " ++ toString idx)
              (some (commands.getD idx .null))) ∈ check_command_listV S context commands)))
    ∧ (((is_expansions_update_or_fn S (commands.getD idx .null)
          || is_timeout_update_or_fn S (commands.getD idx .null))
         && bad_next S commands[idx + 1]?) = false →
        (check_command_listV S context commands).countP (Viol.isUpdateViolAt idx) = 0)
    ∧ (∀ fc, renderViol S.expansions_write_fns (Viol.expUpdate idx fc)
          ≠ renderViol S.expansions_write_fns (Viol.timeoutUpdate idx fc))
    ∧ check_command_list S context commands
        = (check_command_listV S context commands).map (renderViol S.expansions_write_fns) := by
  have hfire : ((is_expansions_update_or_fn S (commands.getD idx .null)
      || is_timeout_update_or_fn S (commands.getD idx .null))
      && bad_next S commands[idx + 1]?)
      = upd_fire S (commands.getD idx .null) commands[idx + 1]? := rfl
  have hcount := upd_trace_count S context commands 0 idx hidx
  rw [Nat.zero_add] at hcount
  refine ⟨?_, ?_, ?_, rfl⟩
  · intro h
    rw [hfire] at h
    refine ⟨?_, ?_, ?_⟩
    · rw [countP_upd_check, hcount, h]
      simp
    · intro hexp
      have hm := upd_trace_mem S context commands 0 idx hidx h
      rw [Nat.zero_add, hexp] at hm
      simp only [if_true] at hm
      rw [← filter_upd_simple S context commands false false false 0] at hm
      have hmem := List.mem_of_mem_filter hm
      rwa [checkV_eq_simple]
    · intro hexp
      have hm := upd_trace_mem S context commands 0 idx hidx h
      rw [Nat.zero_add, hexp] at hm
      simp only [Bool.false_eq_true, if_false] at hm
      rw [← filter_upd_simple S context commands false false false 0] at hm
      have hmem := List.mem_of_mem_filter hm
      rwa [checkV_eq_simple]
  · intro h
    rw [hfire] at h
    rw [countP_upd_check, hcount, h]
    simp
  · intro fc
    exact out_message_update_wording S.expansions_write_fns fc

/-- Membership after a set insertion. -/
theorem addFn_mem (l : List String) (m n : String) : n ∈ addFn l m ↔ n ∈ l ∨ n = m := by
  unfold addFn
  by_cases h : l.contains m
  · simp only [h, if_true]
    constructor
    · exact Or.inl
    · rintro (hn | rfl)
      · exact hn
      · simpa using h
  · simp only [h, if_false]
    simp [List.mem_append]

/-- One classification step and the expansions-write set. -/
theorem classifyStep_write_mem (S0 : FnSets) (f : String × Yaml) (n : String) :
    n ∈ (classifyStep S0 f).expansions_write_fns ↔
      n ∈ S0.expansions_write_fns
        ∨ (n = f.1 ∧ f.2.isMapShape = true ∧ match_expansions_write f.2 = true) := by
  unfold classifyStep
  split_ifs with h1 h2 h3 h4 h5 <;> simp_all [addFn_mem]

/-- One classification step and the subprocess-exec set. -/
theorem classifyStep_sub_mem (S0 : FnSets) (f : String × Yaml) (n : String) :
    n ∈ (classifyStep S0 f).subprocess_exec_fns ↔
      n ∈ S0.subprocess_exec_fns
        ∨ (n = f.1 ∧ f.2.isMapShape = true ∧ match_expansions_write f.2 = false
            ∧ match_subprocess_exec f.2 = true) := by
  unfold classifyStep
  split_ifs with h1 h2 h3 h4 h5 <;> simp_all [addFn_mem]

/-- One classification step and the expansions-update set. -/
theorem classifyStep_upd_mem (S0 : FnSets) (f : String × Yaml) (n : String) :
    n ∈ (classifyStep S0 f).expansions_update_fns ↔
      n ∈ S0.expansions_update_fns
        ∨ (n = f.1 ∧ f.2.isMapShape = true ∧ match_expansions_write f.2 = false
            ∧ match_subprocess_exec f.2 = false ∧ match_expansions_update f.2 = true) := by
  unfold classifyStep
  split_ifs with h1 h2 h3 h4 h5 <;> simp_all [addFn_mem]

/-- One classification step and the timeout-update set. -/
theorem classifyStep_tu_mem (S0 : FnSets) (f : String × Yaml) (n : String) :
    n ∈ (classifyStep S0 f).timeout_update_fns ↔
      n ∈ S0.timeout_update_fns
        ∨ (n = f.1 ∧ f.2.isMapShape = true ∧ match_expansions_write f.2 = false
            ∧ match_subprocess_exec f.2 = false ∧ match_expansions_update f.2 = false
            ∧ match_timeout_update f.2 = true) := by
  unfold classifyStep
  split_ifs with h1 h2 h3 h4 h5 <;> simp_all [addFn_mem]

/-- The classification loop and the expansions-write set. -/
theorem classify_fold_write (n : String) :
    ∀ (fns : List (String × Yaml)) (S0 : FnSets),
    n ∈ (fns.foldl classifyStep S0).expansions_write_fns ↔
      n ∈ S0.expansions_write_fns
        ∨ ∃ b, (n, b) ∈ fns ∧ b.isMapShape = true ∧ match_expansions_write b = true := by
  intro fns
  induction fns with
  | nil => intro S0; simp
  | cons f rest ih =>
    intro S0
    rw [List.foldl_cons, ih, classifyStep_write_mem]
    constructor
    · rintro ((h | ⟨rfl, hm, hw⟩) | ⟨b, hb, hm, hw⟩)
      · exact Or.inl h
      · exact Or.inr ⟨f.2, by simp, hm, hw⟩
      · exact Or.inr ⟨b, List.mem_cons_of_mem _ hb, hm, hw⟩
    · rintro (h | ⟨b, hb, hm, hw⟩)
      · exact Or.inl (Or.inl h)
      · rcases List.mem_cons.mp hb with hb1 | hb2
        · left; right
          rw [← hb1]
          exact ⟨rfl, hm, hw⟩
        · exact Or.inr ⟨b, hb2, hm, hw⟩

/-- The classification loop and the subprocess-exec set. -/
theorem classify_fold_sub (n : String) :
    ∀ (fns : List (String × Yaml)) (S0 : FnSets),
    n ∈ (fns.foldl classifyStep S0).subprocess_exec_fns ↔
      n ∈ S0.subprocess_exec_fns
        ∨ ∃ b, (n, b) ∈ fns ∧ b.isMapShape = true ∧ match_expansions_write b = false
            ∧ match_subprocess_exec b = true := by
  intro fns
  induction fns with
  | nil => intro S0; simp
  | cons f rest ih =>
    intro S0
    rw [List.foldl_cons, ih, classifyStep_sub_mem]
    constructor
    · rintro ((h | ⟨rfl, hm, hw, hs⟩) | ⟨b, hb, hm, hw, hs⟩)
      · exact Or.inl h
      · exact Or.inr ⟨f.2, by simp, hm, hw, hs⟩
      · exact Or.inr ⟨b, List.mem_cons_of_mem _ hb, hm, hw, hs⟩
    · rintro (h | ⟨b, hb, hm, hw, hs⟩)
      · exact Or.inl (Or.inl h)
      · rcases List.mem_cons.mp hb with hb1 | hb2
        · left; right
          rw [← hb1]
          exact ⟨rfl, hm, hw, hs⟩
        · exact Or.inr ⟨b, hb2, hm, hw, hs⟩

/-- The classification loop and the expansions-update set. -/
theorem classify_fold_upd (n : String) :
    ∀ (fns : List (String × Yaml)) (S0 : FnSets),
    n ∈ (fns.foldl classifyStep S0).expansions_update_fns ↔
      n ∈ S0.expansions_update_fns
        ∨ ∃ b, (n, b) ∈ fns ∧ b.isMapShape = true ∧ match_expansions_write b = false
            ∧ match_subprocess_exec b = false ∧ match_expansions_update b = true := by
  intro fns
  induction fns with
  | nil => intro S0; simp
  | cons f rest ih =>
    intro S0
    rw [List.foldl_cons, ih, classifyStep_upd_mem]
    constructor
    · rintro ((h | ⟨rfl, hm, hw, hs, hu⟩) | ⟨b, hb, hm, hw, hs, hu⟩)
      · exact Or.inl h
      · exact Or.inr ⟨f.2, by simp, hm, hw, hs, hu⟩
      · exact Or.inr ⟨b, List.mem_cons_of_mem _ hb, hm, hw, hs, hu⟩
    · rintro (h | ⟨b, hb, hm, hw, hs, hu⟩)
      · exact Or.inl (Or.inl h)
      · rcases List.mem_cons.mp hb with hb1 | hb2
        · left; right
          rw [← hb1]
          exact ⟨rfl, hm, hw, hs, hu⟩
        · exact Or.inr ⟨b, hb2, hm, hw, hs, hu⟩

/-- The classification loop and the timeout-update set. -/
theorem classify_fold_tu (n : String) :
    ∀ (fns : List (String × Yaml)) (S0 : FnSets),
    n ∈ (fns.foldl classifyStep S0).timeout_update_fns ↔
      n ∈ S0.timeout_update_fns
        ∨ ∃ b, (n, b) ∈ fns ∧ b.isMapShape = true ∧ match_expansions_write b = false
            ∧ match_subprocess_exec b = false ∧ match_expansions_update b = false
            ∧ match_timeout_update b = true := by
  intro fns
  induction fns with
  | nil => intro S0; simp
  | cons f rest ih =>
    intro S0
    rw [List.foldl_cons, ih, classifyStep_tu_mem]
    constructor
    · rintro ((h | ⟨rfl, hm, hw, hs, hu, ht⟩) | ⟨b, hb, hm, hw, hs, hu, ht⟩)
      · exact Or.inl h
      · exact Or.inr ⟨f.2, by simp, hm, hw, hs, hu, ht⟩
      · exact Or.inr ⟨b, List.mem_cons_of_mem _ hb, hm, hw, hs, hu, ht⟩
    · rintro (h | ⟨b, hb, hm, hw, hs, hu, ht⟩)
      · exact Or.inl (Or.inl h)
      · rcases List.mem_cons.mp hb with hb1 | hb2
        · left; right
          rw [← hb1]
          exact ⟨rfl, hm, hw, hs, hu, ht⟩
        · exact Or.inr ⟨b, hb2, hm, hw, hs, hu, ht⟩

/-- In an association list with pairwise distinct keys, a key determines its
value. -/
theorem nodup_keys_eq :
    ∀ (fns : List (String × Yaml)) (n : String) (b1 b2 : Yaml),
    (fns.map Prod.fst).Nodup → (n, b1) ∈ fns → (n, b2) ∈ fns → b1 = b2 := by
  intro fns
  induction fns with
  | nil => intro n b1 b2 _ h1; simp at h1
  | cons f rest ih =>
    intro n b1 b2 hnd h1 h2
    rw [List.map_cons, List.nodup_cons] at hnd
    obtain ⟨hf, hrest⟩ := hnd
    rcases List.mem_cons.mp h1 with e1 | m1 <;> rcases List.mem_cons.mp h2 with e2 | m2
    · rw [← e1] at e2
      exact (Prod.mk.injEq _ _ _ _ |>.mp e2).2.symm
    · exfalso
      apply hf
      have hn : n ∈ List.map Prod.fst rest := by
        simpa using List.mem_map_of_mem Prod.fst m2
      have hfn : f.1 = n := by rw [← e1]
      rwa [hfn]
    · exfalso
      apply hf
      have hn : n ∈ List.map Prod.fst rest := by
        simpa using List.mem_map_of_mem Prod.fst m1
      have hfn : f.1 = n := by rw [← e2]
      rwa [hfn]
    · exact ih n b1 b2 hrest m1 m2

/-- C3: the function classification assigns only dict-form bodies; each
dict-form body is tested against the four predicates in the fixed order
expansions-write, subprocess-exec, expansions-update, timeout-update and
assigned to the first match only, so with distinct function names the four
sets are pairwise disjoint; a body matching no predicate is classified into
none of the sets. -/
theorem c3_classification (fns : List (String × Yaml))
    (hnd : (fns.map Prod.fst).Nodup) :
    (∀ n, (n ∈ (classifyFunctions fns).expansions_write_fns
        ∨ n ∈ (classifyFunctions fns).subprocess_exec_fns
        ∨ n ∈ (classifyFunctions fns).expansions_update_fns
        ∨ n ∈ (classifyFunctions fns).timeout_update_fns) →
      ∃ b, (n, b) ∈ fns ∧ b.isMapShape = true)
    ∧ (∀ n, n ∈ (classifyFunctions fns).expansions_write_fns ↔
        ∃ b, (n, b) ∈ fns ∧ b.isMapShape = true ∧ match_expansions_write b = true)
    ∧ (∀ n, n ∈ (classifyFunctions fns).subprocess_exec_fns ↔
        ∃ b, (n, b) ∈ fns ∧ b.isMapShape = true ∧ match_expansions_write b = false
          ∧ match_subprocess_exec b = true)
    ∧ (∀ n, n ∈ (classifyFunctions fns).expansions_update_fns ↔
        ∃ b, (n, b) ∈ fns ∧ b.isMapShape = true ∧ match_expansions_write b = false
          ∧ match_subprocess_exec b = false ∧ match_expansions_update b = true)
    ∧ (∀ n, n ∈ (classifyFunctions fns).timeout_update_fns ↔
        ∃ b, (n, b) ∈ fns ∧ b.isMapShape = true ∧ match_expansions_write b = false
          ∧ match_subprocess_exec b = false ∧ match_expansions_update b = false
          ∧ match_timeout_update b = true)
    ∧ (∀ n, ¬(n ∈ (classifyFunctions fns).expansions_write_fns
        ∧ n ∈ (classifyFunctions fns).subprocess_exec_fns))
    ∧ (∀ n, ¬(n ∈ (classifyFunctions fns).expansions_write_fns
        ∧ n ∈ (classifyFunctions fns).expansions_update_fns))
    ∧ (∀ n, ¬(n ∈ (classifyFunctions fns).expansions_write_fns
        ∧ n ∈ (classifyFunctions fns).timeout_update_fns))
    ∧ (∀ n, ¬(n ∈ (classifyFunctions fns).subprocess_exec_fns
        ∧ n ∈ (classifyFunctions fns).expansions_update_fns))
    ∧ (∀ n, ¬(n ∈ (classifyFunctions fns).subprocess_exec_fns
        ∧ n ∈ (classifyFunctions fns).timeout_update_fns))
    ∧ (∀ n, ¬(n ∈ (classifyFunctions fns).expansions_update_fns
        ∧ n ∈ (classifyFunctions fns).timeout_update_fns))
    ∧ (∀ n b, (n, b) ∈ fns → match_expansions_write b = false →
        match_subprocess_exec b = false → match_expansions_update b = false →
        match_timeout_update b = false →
        n ∉ (classifyFunctions fns).expansions_write_fns
        ∧ n ∉ (classifyFunctions fns).subprocess_exec_fns
        ∧ n ∉ (classifyFunctions fns).expansions_update_fns
        ∧ n ∉ (classifyFunctions fns).timeout_update_fns) := by
  have hW : ∀ n, n ∈ (classifyFunctions fns).expansions_write_fns ↔
      ∃ b, (n, b) ∈ fns ∧ b.isMapShape = true ∧ match_expansions_write b = true := by
    intro n
    rw [classifyFunctions, classify_fold_write]
    simp [emptyFnSets]
  have hS : ∀ n, n ∈ (classifyFunctions fns).subprocess_exec_fns ↔
      ∃ b, (n, b) ∈ fns ∧ b.isMapShape = true ∧ match_expansions_write b = false
        ∧ match_subprocess_exec b = true := by
    intro n
    rw [classifyFunctions, classify_fold_sub]
    simp [emptyFnSets]
  have hU : ∀ n, n ∈ (classifyFunctions fns).expansions_update_fns ↔
      ∃ b, (n, b) ∈ fns ∧ b.isMapShape = true ∧ match_expansions_write b = false
        ∧ match_subprocess_exec b = false ∧ match_expansions_update b = true := by
    intro n
    rw [classifyFunctions, classify_fold_upd]
    simp [emptyFnSets]
  have hT : ∀ n, n ∈ (classifyFunctions fns).timeout_update_fns ↔
      ∃ b, (n, b) ∈ fns ∧ b.isMapShape = true ∧ match_expansions_write b = false
        ∧ match_subprocess_exec b = false ∧ match_expansions_update b = false
        ∧ match_timeout_update b = true := by
    intro n
    rw [classifyFunctions, classify_fold_tu]
    simp [emptyFnSets]
  refine ⟨?_, hW, hS, hU, hT, ?_, ?_, ?_, ?_, ?_, ?_, ?_⟩
  · intro n h
    rcases h with h | h | h | h
    · obtain ⟨b, hb, hm, _⟩ := (hW n).mp h
      exact ⟨b, hb, hm⟩
    · obtain ⟨b, hb, hm, _, _⟩ := (hS n).mp h
      exact ⟨b, hb, hm⟩
    · obtain ⟨b, hb, hm, _, _, _⟩ := (hU n).mp h
      exact ⟨b, hb, hm⟩
    · obtain ⟨b, hb, hm, _, _, _, _⟩ := (hT n).mp h
      exact ⟨b, hb, hm⟩
  · rintro n ⟨h1, h2⟩
    obtain ⟨b1, m1, _, w1⟩ := (hW n).mp h1
    obtain ⟨b2, m2, _, w2, _⟩ := (hS n).mp h2
    rw [nodup_keys_eq fns n b1 b2 hnd m1 m2] at w1
    rw [w1] at w2
    simp at w2
  · rintro n ⟨h1, h2⟩
    obtain ⟨b1, m1, _, w1⟩ := (hW n).mp h1
    obtain ⟨b2, m2, _, w2, _, _⟩ := (hU n).mp h2
    rw [nodup_keys_eq fns n b1 b2 hnd m1 m2] at w1
    rw [w1] at w2
    simp at w2
  · rintro n ⟨h1, h2⟩
    obtain ⟨b1, m1, _, w1⟩ := (hW n).mp h1
    obtain ⟨b2, m2, _, w2, _, _, _⟩ := (hT n).mp h2
    rw [nodup_keys_eq fns n b1 b2 hnd m1 m2] at w1
    rw [w1] at w2
    simp at w2
  · rintro n ⟨h1, h2⟩
    obtain ⟨b1, m1, _, _, s1⟩ := (hS n).mp h1
    obtain ⟨b2, m2, _, _, s2, _⟩ := (hU n).mp h2
    rw [nodup_keys_eq fns n b1 b2 hnd m1 m2] at s1
    rw [s1] at s2
    simp at s2
  · rintro n ⟨h1, h2⟩
    obtain ⟨b1, m1, _, _, s1⟩ := (hS n).mp h1
    obtain ⟨b2, m2, _, _, s2, _, _⟩ := (hT n).mp h2
    rw [nodup_keys_eq fns n b1 b2 hnd m1 m2] at s1
    rw [s1] at s2
    simp at s2
  · rintro n ⟨h1, h2⟩
    obtain ⟨b1, m1, _, _, _, u1⟩ := (hU n).mp h1
    obtain ⟨b2, m2, _, _, _, u2, _⟩ := (hT n).mp h2
    rw [nodup_keys_eq fns n b1 b2 hnd m1 m2] at u1
    rw [u1] at u2
    simp at u2
  · intro n b hb hw hs hu ht
    refine ⟨?_, ?_, ?_, ?_⟩
    · intro hmem
      obtain ⟨b1, m1, _, w1⟩ := (hW n).mp hmem
      rw [nodup_keys_eq fns n b1 b hnd m1 hb] at w1
      rw [hw] at w1
      simp at w1
    · intro hmem
      obtain ⟨b1, m1, _, _, s1⟩ := (hS n).mp hmem
      rw [nodup_keys_eq fns n b1 b hnd m1 hb] at s1
      rw [hs] at s1
      simp at s1
    · intro hmem
      obtain ⟨b1, m1, _, _, _, u1⟩ := (hU n).mp hmem
      rw [nodup_keys_eq fns n b1 b hnd m1 hb] at u1
      rw [hu] at u1
      simp at u1
    · intro hmem
      obtain ⟨b1, m1, _, _, _, _, t1⟩ := (hT n).mp hmem
      rw [nodup_keys_eq fns n b1 b hnd m1 hb] at t1
      rw [ht] at t1
      simp at t1

/-- A conditional filterMap is the map over the filter. -/
theorem filterMap_ite_eq_filter_map (f : α → β) (q : α → Bool) :
    ∀ l : List α,
    l.filterMap (fun a => if q a then some (f a) else none) = (l.filter q).map f := by
  intro l
  induction l with
  | nil => rfl
  | cons a rest ih =>
    cases hq : q a <;> simp [List.filterMap_cons, List.filter_cons, hq, ih]

/-- C4: for every direct function-call site, exactly one dangerous-function
violation is emitted when the called name is classified into
`subprocess_exec_fns` and the call carries a truthy variables mapping — the
call-site errors are one message per qualifying site, in site order — and
this part of the output is computed from the call sites and the
classification alone, independently of (and appended after) the command-list
ordering checks. -/
theorem c4_dangerous_call_args (config yaml : Yaml) (S : FnSets)
    (h : classified_sets yaml = Except.ok S) :
    call config yaml
      = Except.ok (command_list_errors S yaml ++ call_site_errors S yaml)
    ∧ call_site_errors S yaml
        = ((iterate_fn_calls_context yaml).filter (fun p => is_dangerous_call S p.2)).map
            (fun p => out_message_dangerous_function S.expansions_write_fns p.1) := by
  constructor
  · unfold call
    rw [h]
  · unfold call_site_errors
    exact filterMap_ite_eq_filter_map _ _ _

/-- C8: the output is the command-list violations followed by the call-site
violations, and within one command list the violations of the scan appear in
emission order with the post-scan fallback violation (if any) appended
last. -/
theorem c8_output_ordering (config yaml : Yaml) (S : FnSets)
    (h : classified_sets yaml = Except.ok S) :
    call config yaml
      = Except.ok (command_list_errors S yaml ++ call_site_errors S yaml)
    ∧ (∀ context cmds, check_command_list S context cmds
        = ((scan_list S context initScan 0 cmds).out).map (renderViol S.expansions_write_fns)
          ++ (scan_fallback S context (scan_list S context initScan 0 cmds)).map
              (renderViol S.expansions_write_fns)) := by
  constructor
  · unfold call
    rw [h]
  · intro context cmds
    unfold check_command_list check_command_listV
    rw [List.map_append]

/-- C7: the rule is deterministic — two invocations on the same config and
document return the same result. -/
theorem c7_deterministic : ∀ (config yaml : Yaml) (out1 out2 : Except String (List String)),
    call config yaml = out1 → call config yaml = out2 → out1 = out2 := by
  intro _ _ _ _ h1 h2
  rw [← h1, ← h2]

/-- C10: the rule output does not depend on the config argument — the body of
`__call__` never reads it. -/
theorem c10_config_ignored : ∀ (config1 config2 yaml : Yaml),
    call config1 yaml = call config2 yaml := fun _ _ _ => rfl

/-- C6 (counterexample): a document whose `functions` key holds a sequence is
a mapping from string keys to YAML values, yet the rule invocation raises
(`.items()` on a non-mapping) instead of returning an error list. -/
theorem c6_counterexample :
    call (Yaml.map []) (Yaml.map [("functions", Yaml.list [])])
      = Except.error "AttributeError: the functions value has no attribute items" := rfl

/-- C5 (counterexample): with a config whose regex matches nothing, the rule
still treats the evergreen-script `subprocess.exec` step as a script
execution and reports it, and its output is the same as under the default
regex: the regex option does not determine the classification. -/
theorem c5_counterexample :
    call (Yaml.map [("regex", Yaml.str "totally-unrelated-pattern")]) docEvergreenExec
      = call defaults docEvergreenExec
    ∧ call (Yaml.map [("regex", Yaml.str "totally-unrelated-pattern")]) docEvergreenExec
        ≠ Except.ok [] := by
  constructor
  · rfl
  · intro h
    have hc : call (Yaml.map [("regex", Yaml.str "totally-unrelated-pattern")]) docEvergreenExec
        = Except.ok [out_message_subprocess [] "tasks[0].commands, command 0"] := rfl
    rw [hc] at h
    have h2 := Except.ok.inj h
    simp at h2

/-- C5 (amended): the script-execution classification tests `subprocess.exec`
commands against the fixed default pattern (paths under an `evergreen/`
directory ending in `.sh`); the rule declares that pattern as the default of
its `regex` option, but its invocation never reads the config, so the
classification does not vary with the option. -/
theorem c5_regex_fixed :
    defaults = Yaml.map [("regex", Yaml.str ".*\\/evergreen\\/.*\\.sh")]
    ∧ (∀ c, match_subprocess_exec c = true →
        c.lookup "command" = some (Yaml.str "subprocess.exec")
        ∧ matchesEvergreenScript (scriptArg c) = true)
    ∧ (∀ config1 config2 yaml, call config1 yaml = call config2 yaml) := by
  refine ⟨rfl, ?_, fun _ _ _ => rfl⟩
  intro c h
  unfold match_subprocess_exec at h
  rw [Bool.and_eq_true] at h
  obtain ⟨h1, h2⟩ := h
  refine ⟨?_, h2⟩
  cases hl : c.lookup "command" with
  | none => rw [hl] at h1; simp at h1
  | some v =>
    rw [hl] at h1
    cases v with
    | str t =>
      simp at h1
      subst h1
      rfl
    | null => simp at h1
    | bool b => simp at h1
    | nat n => simp at h1
    | list l => simp at h1
    | map m => simp at h1

/-- Witness for C1 at a concrete list: a script execution followed by a write
yields exactly the one violation for step 0. -/
theorem c1_witness :
    is_subprocess_exec_or_fn emptyFnSets sampleSubCmd = true
    ∧ (check_command_listV emptyFnSets "tasks" [sampleSubCmd, sampleWriteCmd]).filter
        Viol.isSubprocViol
        = [Viol.subproc 0 (context_add_fn ("tasks" ++ ", command " ++ toString 0)
            (some ([sampleSubCmd, sampleWriteCmd].getD 0 .null)))] :=
  ⟨by decide,
   (c1_exec_requires_prior_write emptyFnSets "tasks" [sampleSubCmd, sampleWriteCmd]).2.1
     0 (by decide) (by decide)
     (fun k hk => absurd hk (by omega)) (fun k hk => absurd hk (by omega))⟩

/-- Witness for C2 at a concrete list: an expansions-update step not followed
by a write yields exactly one violation tagged to it. -/
theorem c2_witness :
    (check_command_listV emptyFnSets "post" [sampleUpdCmd, sampleShellCmd]).countP
      (Viol.isUpdateViolAt 0) = 1 :=
  ((c2_update_followed_by_write emptyFnSets "post" [sampleUpdCmd, sampleShellCmd]
      0 (by decide)).1 (by decide)).1

/-- Witness for C3 at a concrete function mapping: a name classified as an
expansions write is not also classified as a subprocess exec. -/
theorem c3_witness :
    ¬("write fn" ∈ (classifyFunctions
        [("write fn", sampleWriteCmd), ("exec fn", sampleSubCmd)]).expansions_write_fns
      ∧ "write fn" ∈ (classifyFunctions
        [("write fn", sampleWriteCmd), ("exec fn", sampleSubCmd)]).subprocess_exec_fns) :=
  (c3_classification [("write fn", sampleWriteCmd), ("exec fn", sampleSubCmd)]
    (by decide)).2.2.2.2.2.1 "write fn"

/-- Witness for C4 at a concrete document: the output is the command-list
errors followed by the call-site errors, and both checks fire — the ordering
violation and the dangerous-call violation appear together. -/
theorem c4_witness :
    call (Yaml.map []) docFnCall
      = Except.ok (command_list_errors ⟨[], ["run script"], [], []⟩ docFnCall
          ++ call_site_errors ⟨[], ["run script"], [], []⟩ docFnCall)
    ∧ call (Yaml.map []) docFnCall
      = Except.ok
          [out_message_subprocess [] "tasks[0].commands, command 0, (function call: run script)",
           out_message_dangerous_function [] "tasks[0].commands, command 0"] :=
  ⟨(c4_dangerous_call_args (Yaml.map []) docFnCall ⟨[], ["run script"], [], []⟩ rfl).1,
   rfl⟩

/-- Witness for C5: a `subprocess.exec` command running an evergreen script
is classified as a script execution, and the classification facts follow from
the amended statement. -/
theorem c5_witness :
    match_subprocess_exec sampleSubCmd = true
    ∧ (sampleSubCmd.lookup "command" = some (Yaml.str "subprocess.exec")
       ∧ matchesEvergreenScript (scriptArg sampleSubCmd) = true) :=
  ⟨by decide, c5_regex_fixed.2.1 sampleSubCmd (by decide)⟩

/-- Witness for C7 at a concrete document. -/
theorem c7_witness :
    call (Yaml.map []) docEvergreenExec = call (Yaml.map []) docEvergreenExec :=
  c7_deterministic (Yaml.map []) docEvergreenExec
    (call (Yaml.map []) docEvergreenExec) (call (Yaml.map []) docEvergreenExec) rfl rfl

/-- Witness for C8 at a concrete document. -/
theorem c8_witness :
    call (Yaml.map []) docEvergreenExec
      = Except.ok (command_list_errors emptyFnSets docEvergreenExec
          ++ call_site_errors emptyFnSets docEvergreenExec) :=
  (c8_output_ordering (Yaml.map []) docEvergreenExec emptyFnSets rfl).1

/-- Witness for C9 at a concrete list whose single command is a script
execution and not an expansions write. -/
theorem c9_witness :
    check_command_list emptyFnSets "pre" [sampleSubCmd]
      = check_command_list_nofallback emptyFnSets "pre" [sampleSubCmd] :=
  (c9_fallback_unreachable emptyFnSets "pre" [sampleSubCmd] (by decide)).1

/-! Agreement of the error-aware checker with the total checker on
well-shaped documents. -/

/-- Binding a success evaluates the continuation. -/
theorem except_bind_ok (a : α) (f : α → Except ε β) : (Except.ok a).bind f = f a := rfl

/-- A guarded successful test is the conjunction of guard and test. -/
theorem ite_ok_and (a b : Bool) (x : Except String Bool) (h : x = .ok b) :
    (if a then x else Except.ok false) = .ok (a && b) := by
  cases a <;> simp [h]

/-- A short-circuited successful test is the disjunction of guard and test. -/
theorem ite_ok_or (a b : Bool) (x : Except String Bool) (h : x = .ok b) :
    (if a then Except.ok true else x) = .ok (a || b) := by
  cases a <;> simp [h]

/-- On a well-shaped command the membership test returns the collapsed
membership value. -/
theorem fn_membership_ok (fns : List String) (c : Yaml) (h : commandShapeOK c = true) :
    fn_membership fns c
      = .ok (match c.lookup "func" with
             | some (.str s) => fns.contains s
             | _ => false) := by
  cases c with
  | map kvs =>
    cases hl : Yaml.lookup (Yaml.map kvs) "func" with
    | none => simp [fn_membership, hl]
    | some v =>
      cases v with
      | str t => simp [fn_membership, hl]
      | null => simp [fn_membership, hl]
      | bool b => simp [fn_membership, hl]
      | nat n => simp [fn_membership, hl]
      | list l => simp [commandShapeOK, hl] at h
      | map m => simp [commandShapeOK, hl] at h
  | null => simp [commandShapeOK] at h
  | bool b => simp [commandShapeOK] at h
  | nat n => simp [commandShapeOK] at h
  | str t => simp [commandShapeOK] at h
  | list l => simp [commandShapeOK] at h

/-- On a well-shaped command the error-aware write predicate agrees with the
total one. -/
theorem is_wrE_ok (S : FnSets) (c : Yaml) (h : commandShapeOK c = true) :
    is_expansions_write_or_fnE S c = .ok (is_expansions_write_or_fn S c) := by
  unfold is_expansions_write_or_fnE is_expansions_write_or_fn
  cases hm : match_expansions_write c with
  | true => simp [hm]
  | false =>
    simp only [hm, Bool.false_eq_true, if_false, Bool.false_or]
    exact fn_membership_ok _ _ h

/-- On a well-shaped command the error-aware exec predicate agrees with the
total one. -/
theorem is_subE_ok (S : FnSets) (c : Yaml) (h : commandShapeOK c = true) :
    is_subprocess_exec_or_fnE S c = .ok (is_subprocess_exec_or_fn S c) := by
  unfold is_subprocess_exec_or_fnE is_subprocess_exec_or_fn
  cases hm : match_subprocess_exec c with
  | true => simp [hm]
  | false =>
    simp only [hm, Bool.false_eq_true, if_false, Bool.false_or]
    exact fn_membership_ok _ _ h

/-- On a well-shaped command the error-aware update predicate agrees with the
total one. -/
theorem is_updE_ok (S : FnSets) (c : Yaml) (h : commandShapeOK c = true) :
    is_expansions_update_or_fnE S c = .ok (is_expansions_update_or_fn S c) := by
  unfold is_expansions_update_or_fnE is_expansions_update_or_fn
  cases hm : match_expansions_update c with
  | true => simp [hm]
  | false =>
    simp only [hm, Bool.false_eq_true, if_false, Bool.false_or]
    exact fn_membership_ok _ _ h

/-- On a well-shaped command the error-aware timeout predicate agrees with
the total one. -/
theorem is_tuE_ok (S : FnSets) (c : Yaml) (h : commandShapeOK c = true) :
    is_timeout_update_or_fnE S c = .ok (is_timeout_update_or_fn S c) := by
  unfold is_timeout_update_or_fnE is_timeout_update_or_fn
  cases hm : match_timeout_update c with
  | true => simp [hm]
  | false =>
    simp only [hm, Bool.false_eq_true, if_false, Bool.false_or]
    exact fn_membership_ok _ _ h

/-- On a well-shaped command (with a well-shaped successor, when the update
branch looks at it) one error-aware loop iteration succeeds and computes the
total iteration. -/
theorem scan_stepE_ok (S : FnSets) (context : String) (st : ScanState) (idx : Nat)
    (c : Yaml) (next? : Option Yaml) (hc : commandShapeOK c = true)
    (hn : ∀ nxt, next? = some nxt → commandShapeOK nxt = true) :
    scan_stepE S context st idx c next? = .ok (scan_step S context st idx c next?) := by
  unfold scan_stepE
  rw [ite_ok_and _ _ _ (is_subE_ok S c hc)]
  simp only [except_bind_ok]
  rw [ite_ok_and _ _ _ (is_wrE_ok S c hc)]
  simp only [except_bind_ok]
  rw [ite_ok_and _ _ _ (is_subE_ok S c hc)]
  simp only [except_bind_ok]
  rw [is_updE_ok S c hc]
  simp only [except_bind_ok]
  rw [ite_ok_or _ _ _ (is_tuE_ok S c hc)]
  simp only [except_bind_ok]
  have hbad : (if (is_expansions_update_or_fn S c || is_timeout_update_or_fn S c) then
      (match next? with
       | none => Except.ok true
       | some nxt => (is_expansions_write_or_fnE S nxt).map (fun wn => !wn))
    else Except.ok false)
      = Except.ok ((is_expansions_update_or_fn S c || is_timeout_update_or_fn S c)
          && bad_next S next?) := by
    cases next? with
    | none =>
      cases h2 : (is_expansions_update_or_fn S c || is_timeout_update_or_fn S c) <;>
        simp [bad_next, h2]
    | some nxt =>
      have hw := is_wrE_ok S nxt (hn nxt rfl)
      cases h2 : (is_expansions_update_or_fn S c || is_timeout_update_or_fn S c) <;>
        simp [bad_next, Except.map, h2, hw]
  rw [hbad]
  simp only [except_bind_ok]
  simp only [scan_step, step_viols, fire_first_sub, fire_first_write, new_first_write,
    fire_warn, upd_fire, Bool.and_assoc]

/-- On a list of well-shaped commands the error-aware scan succeeds and
computes the total scan. -/
theorem scan_listE_ok (S : FnSets) (context : String) :
    ∀ (cs : List Yaml) (st : ScanState) (idx : Nat),
    (∀ c ∈ cs, commandShapeOK c = true) →
    scan_listE S context st idx cs = .ok (scan_list S context st idx cs) := by
  intro cs
  induction cs with
  | nil => intro st idx _; rfl
  | cons c rest ih =>
    intro st idx h
    rw [scan_listE, scan_stepE_ok S context st idx c rest.head?
      (h c (List.mem_cons_self c rest))
      (fun nxt hnx => h nxt (by
        cases rest with
        | nil => simp at hnx
        | cons a t =>
          simp at hnx
          subst hnx
          exact List.mem_cons_of_mem c (List.mem_cons_self a t)))]
    rw [scan_list]
    exact ih (scan_step S context st idx c rest.head?) (idx + 1)
      (fun c2 hc2 => h c2 (List.mem_cons_of_mem c hc2))

/-- On a list of well-shaped commands the error-aware checker succeeds and
computes the total checker. -/
theorem check_command_listE_ok (S : FnSets) (context : String) (commands : List Yaml)
    (h : ∀ c ∈ commands, commandShapeOK c = true) :
    check_command_listE S context commands = .ok (check_command_list S context commands) := by
  unfold check_command_listE check_command_list check_command_listV
  rw [scan_listE_ok S context commands initScan 0 h]
  simp [Except.map]

/-- On well-shaped command-list values the error-aware command-list phase
succeeds and computes the total one. -/
theorem command_lists_errorsE_ok (S : FnSets) :
    ∀ (l : List (String × Yaml)), (∀ p ∈ l, commandsShapeOK p.2 = true) →
    command_lists_errorsE S l
      = .ok (l.flatMap (fun p =>
          match p.2 with
          | .map _ => []
          | .list cmds => check_command_list S p.1 cmds
          | _ => [])) := by
  intro l
  induction l with
  | nil => intro _; rfl
  | cons p rest ih =>
    intro h
    have hp := h p (List.mem_cons_self p rest)
    have hr : ∀ q ∈ rest, commandsShapeOK q.2 = true :=
      fun q hq => h q (List.mem_cons_of_mem p hq)
    cases hv : p.2 with
    | map kvs => simp [command_lists_errorsE, hv, ih hr]
    | str t => simp [command_lists_errorsE, hv, ih hr]
    | list cmds =>
      have hall : ∀ c ∈ cmds, commandShapeOK c = true := by
        rw [hv] at hp
        simp [commandsShapeOK, List.all_eq_true] at hp
        exact hp
      simp [command_lists_errorsE, hv, ih hr,
        check_command_listE_ok S p.1 cmds hall, Except.map]
    | null => rw [hv] at hp; simp [commandsShapeOK] at hp
    | bool b => rw [hv] at hp; simp [commandsShapeOK] at hp
    | nat n => rw [hv] at hp; simp [commandsShapeOK] at hp

/-- The second component of an enumerated entry is an element of the list. -/
theorem snd_mem_of_mem_enumFrom :
    ∀ (l : List α) (p : Nat × α) (k : Nat), p ∈ l.enumFrom k → p.2 ∈ l := by
  intro l
  induction l with
  | nil => intro p k h; simp [List.enumFrom] at h
  | cons a t ih =>
    intro p k h
    simp only [List.enumFrom, List.mem_cons] at h
    rcases h with h | h
    · rw [h]
      exact List.mem_cons_self a t
    · exact List.mem_cons_of_mem a (ih p (k + 1) h)

/-- Every command yielded as a call site lives in one of the document command
lists, so it is well-shaped when they all are. -/
theorem fn_calls_shape (yaml : Yaml)
    (h : ∀ p ∈ iterate_command_lists yaml, commandsShapeOK p.2 = true) :
    ∀ q ∈ iterate_fn_calls_context yaml, commandShapeOK q.2 = true := by
  intro q hq
  unfold iterate_fn_calls_context at hq
  rw [List.mem_flatMap] at hq
  obtain ⟨p, hp, hq2⟩ := hq
  have hps := h p hp
  cases hv : p.2 with
  | list cmds =>
    rw [hv] at hq2
    simp only [List.mem_filterMap] at hq2
    obtain ⟨ic, hic, heq⟩ := hq2
    have hmem : ic.2 ∈ cmds := snd_mem_of_mem_enumFrom cmds ic 0 hic
    have hsh : commandShapeOK ic.2 = true := by
      rw [hv] at hps
      simp [commandsShapeOK, List.all_eq_true] at hps
      exact hps ic.2 hmem
    cases hf : (Yaml.lookup ic.2 "func").isSome with
    | false => rw [hf] at heq; simp at heq
    | true =>
      rw [hf] at heq
      simp at heq
      rw [← heq]
      exact hsh
  | map kvs => rw [hv] at hq2; simp at hq2
  | str t => rw [hv] at hq2; simp at hq2
  | null => rw [hv] at hq2; simp at hq2
  | bool b => rw [hv] at hq2; simp at hq2
  | nat n => rw [hv] at hq2; simp at hq2

/-- On well-shaped call-site commands the error-aware call-site phase
succeeds and computes the total one. -/
theorem call_sites_errorsE_ok (S : FnSets) :
    ∀ (l : List (String × Yaml)), (∀ q ∈ l, commandShapeOK q.2 = true) →
    call_sites_errorsE S l
      = .ok (l.filterMap (fun p =>
          if is_dangerous_call S p.2 then
            some (out_message_dangerous_function S.expansions_write_fns p.1)
          else none)) := by
  intro l
  induction l with
  | nil => intro _; rfl
  | cons p rest ih =>
    intro h
    have hp := h p (List.mem_cons_self p rest)
    have hr : ∀ q ∈ rest, commandShapeOK q.2 = true :=
      fun q hq => h q (List.mem_cons_of_mem p hq)
    cases hv : p.2 with
    | map kvs =>
      cases hl : Yaml.lookup (Yaml.map kvs) "func" with
      | none =>
        simp [call_sites_errorsE, hv, hl, ih hr, is_dangerous_call]
      | some v =>
        cases v with
        | str s =>
          cases hm : S.subprocess_exec_fns.contains s with
          | false =>
            have hm2 : ¬ s ∈ S.subprocess_exec_fns := by simpa using hm
            simp [call_sites_errorsE, hv, hl, hm, hm2, ih hr, is_dangerous_call]
          | true =>
            have hm2 : s ∈ S.subprocess_exec_fns := by simpa using hm
            cases hvar : (match Yaml.lookup (Yaml.map kvs) "vars" with
                | some w => w.truthy
                | none => false) with
            | false =>
              simp [call_sites_errorsE, hv, hl, hm, hm2, hvar, ih hr, is_dangerous_call]
            | true =>
              simp [call_sites_errorsE, hv, hl, hm, hm2, hvar, ih hr, is_dangerous_call,
                Except.map]
        | null => simp [call_sites_errorsE, hv, hl, ih hr, is_dangerous_call]
        | bool b => simp [call_sites_errorsE, hv, hl, ih hr, is_dangerous_call]
        | nat n => simp [call_sites_errorsE, hv, hl, ih hr, is_dangerous_call]
        | list l2 => rw [hv] at hp; simp [commandShapeOK, hl] at hp
        | map m2 => rw [hv] at hp; simp [commandShapeOK, hl] at hp
    | null => rw [hv] at hp; simp [commandShapeOK] at hp
    | bool b => rw [hv] at hp; simp [commandShapeOK] at hp
    | nat n => rw [hv] at hp; simp [commandShapeOK] at hp
    | str t => rw [hv] at hp; simp [commandShapeOK] at hp
    | list l2 => rw [hv] at hp; simp [commandShapeOK] at hp

/-- C6 (amended): the rule returns an error list without raising on every
document whose `functions` value, when present, is a mapping and whose
iterated command-list values are well-shaped (a mapping, a string, or a
sequence of mapping commands whose func values are hashable); on such
documents the error-aware model and the total model agree.  A missing
`functions` key skips classification and a missing `tasks` key yields an
empty task set.  Outside these shapes the rule can raise: besides the
non-mapping `functions` value, an unhashable func value, a string command
containing func, and a non-iterable command-list value each raise a
TypeError, as the last three conjuncts show at concrete documents. -/
theorem c6_defensive (config yaml : Yaml)
    (hfun : (match yaml.lookup "functions" with
             | some v => v.isMapShape
             | none => true) = true)
    (hcmds : ∀ p ∈ iterate_command_lists yaml, commandsShapeOK p.2 = true) :
    (∃ out, callE config yaml = Except.ok out ∧ call config yaml = Except.ok out)
    ∧ (yaml.lookup "functions" = none → classified_sets yaml = Except.ok emptyFnSets)
    ∧ (yaml.lookup "tasks" = none → task_command_lists yaml = [])
    ∧ callE (Yaml.map []) (Yaml.map [("tasks", Yaml.list [Yaml.map [("commands",
        Yaml.list [Yaml.map [("func", Yaml.list [])]])]])])
        = Except.error "TypeError: unhashable type: list"
    ∧ callE (Yaml.map []) (Yaml.map [("tasks", Yaml.list [Yaml.map [("commands",
        Yaml.list [Yaml.str "func"])]])])
        = Except.error "TypeError: string indices must be integers"
    ∧ callE (Yaml.map []) (Yaml.map [("pre", Yaml.nat 5)])
        = Except.error "TypeError: argument of type int is not iterable" := by
  refine ⟨?_, ?_, ?_, rfl, rfl, rfl⟩
  · have hS : ∃ S, classified_sets yaml = Except.ok S := by
      unfold classified_sets
      cases hl : yaml.lookup "functions" with
      | none => exact ⟨emptyFnSets, rfl⟩
      | some v =>
        rw [hl] at hfun
        cases v with
        | map kvs => exact ⟨classifyFunctions kvs, rfl⟩
        | null => simp [Yaml.isMapShape] at hfun
        | bool b => simp [Yaml.isMapShape] at hfun
        | nat n => simp [Yaml.isMapShape] at hfun
        | str t => simp [Yaml.isMapShape] at hfun
        | list l => simp [Yaml.isMapShape] at hfun
    obtain ⟨S, hSc⟩ := hS
    refine ⟨command_list_errors S yaml ++ call_site_errors S yaml, ?_, ?_⟩
    · simp only [callE, hSc, command_lists_errorsE_ok S (iterate_command_lists yaml) hcmds,
        call_sites_errorsE_ok S (iterate_fn_calls_context yaml) (fn_calls_shape yaml hcmds)]
      rfl
    · unfold call
      rw [hSc]
  · intro hl
    unfold classified_sets
    rw [hl]
  · intro hl
    unfold task_command_lists
    rw [hl]

/-- Witness for C6 at a concrete document with no `functions` key and an
empty task list: both models return an error list. -/
theorem c6_witness :
    (match Yaml.lookup (Yaml.map [("tasks", Yaml.list [])]) "functions" with
     | some v => v.isMapShape
     | none => true) = true
    ∧ (∃ out, callE (Yaml.map []) (Yaml.map [("tasks", Yaml.list [])]) = Except.ok out
        ∧ call (Yaml.map []) (Yaml.map [("tasks", Yaml.list [])]) = Except.ok out) :=
  ⟨rfl, (c6_defensive (Yaml.map []) (Yaml.map [("tasks", Yaml.list [])]) rfl (by decide)).1⟩
